import Mathlib

/-!
Shallow embedding of the AnCode lexer (`src/lexer.rs`).

Modelling conventions:
* Rust `String` buffers become `List Char`; `usize` counters become `Nat`.
* `Lexer::lex` / `Lexer::consume_char` mutate `self`; here they pass an
  explicit `Lexer` record.  The fields `file` and `file_contents` of the Rust
  `Lexer` and `LexError` are only used to render diagnostics and are omitted.
* The Rust field `partial_token` is named `buf` here, and the `LexError`
  field of the same name is `error_lexeme` (the original names clash with a
  reserved word of this development).
* Rust panics (`panic!`, `expect`, `unwrap`) are modelled by the `fatal`
  outcome carrying the panic message, so that unreachability of the panic
  branches is a provable statement.
* `consume_char` in Rust is recursive (re-dispatch after finalizing a
  token).  The embedding `consume_char_aux` takes an explicit fuel; fuel
  exhaustion is a `fatal` outcome, and it is proved below that fuel 2 is
  always enough, so `Lexer.consume_char` fixes the fuel at 2.
* Rust's `"…".contains(c)` alphabet tests become `c ∈ [list of chars]`;
  `char::is_alphabetic` is modelled as the ASCII letter test (matching the
  `'a'..='z' | 'A'..='Z'` identifier-start ranges of the idle branch; none
  of the verified claims distinguishes non-ASCII alphabetic characters).
-/

/-- The character `"` (written via its code point throughout). -/
def quoteChar : Char := Char.ofNat 34

/-- The character `'`. -/
def squoteChar : Char := Char.ofNat 39

/-- The character of an opening curly bracket. -/
def lbraceChar : Char := Char.ofNat 123

/-- The character of a closing curly bracket. -/
def rbraceChar : Char := Char.ofNat 125

inductive Operator where
  | Plus
  | Minus
  | Multiply
  | Divide
  | Equals
deriving DecidableEq, Repr

inductive TokenType where
  | BinLiteral
  | HexLiteral
  | DecimalLiteral (has_decimal_point : Bool)
  | StringLiteral (next_char_escaped : Bool)
  | Operator (op : Operator)
  | LineComment
  | LeftParen
  | RightParen
  | LeftBrace
  | RightBrace
  | Equals
  | Identifier
  | Whitespace
  | Newline
  | EndOfFile
deriving DecidableEq, Repr

inductive LexErrorType where
  | WrongQuotes
  | MalformedBinLiteral
  | WrongHexCase
  | MalformedHexLiteral
  | MalformedDecLiteral
  | MultipleDecimalPoints
  | UnexpectedCharacter
  | TrailingDPoint
  | EmptyBinLiteral
  | EmptyHexLiteral
  | UnexpectedEOFString
  | MissingTrailingNewLine
deriving DecidableEq, Repr

structure Token where
  token_type : TokenType
  value : List Char
  start_line : Nat
  end_line : Nat
  start_index : Nat
  end_index : Nat
deriving DecidableEq, Repr

structure LexError where
  error_type : LexErrorType
  error_lexeme : List Char
  start_line : Nat
  end_line : Nat
  start_index : Nat
  end_index : Nat
deriving DecidableEq, Repr

/-- The mutable lexer state (`struct Lexer` minus the diagnostic fields). -/
structure Lexer where
  full_tokens : List Token
  buf : List Char
  current_char : Option Char
  proposed_token_type : Option TokenType
  start_line : Nat
  end_line : Nat
  start_index : Nat
  end_index : Nat
deriving DecidableEq, Repr

/-- Outcome of `consume_char` (and of running the main loop): the updated
state, a lex error, or a panic with its message. -/
inductive ConsumeResult where
  | ok (s : Lexer)
  | err (e : LexError)
  | fatal (msg : String)
deriving DecidableEq, Repr

/-- Outcome of `Lexer::lex`. -/
inductive LexResult where
  | ok (tokens : List Token)
  | err (e : LexError)
  | fatal (msg : String)
deriving DecidableEq, Repr

/-- The fixed terminator set of `is_literal_terminator` in the source. -/
def terminator_chars : List Char :=
  ['+', '-', '*', '/', '!', quoteChar, '%', '^', '&', '(', ')',
   lbraceChar, rbraceChar, '[', ']', '.', ',', '|', ':', ';', ' ', '\n']

def is_literal_terminator (current_char : Char) : Bool :=
  decide (current_char ∈ terminator_chars)

/-- The alphabet `"01"` of binary literals. -/
def bin_chars : List Char := ['0', '1']

/-- The decimal digits `"0123456789"`. -/
def dec_chars : List Char :=
  ['0', '1', '2', '3', '4',
   '5', '6', '7', '8', '9']

/-- The alphabet `"0123456789abcdef"` of hexadecimal literals. -/
def hex_chars : List Char :=
  dec_chars ++ ['a', 'b', 'c', 'd', 'e', 'f']

/-- The rejected upper-case hex digits `"ABCDEF"`. -/
def upper_hex_chars : List Char := ['A', 'B', 'C', 'D', 'E', 'F']

/-- Model of Rust `char::is_alphabetic`, restricted to ASCII letters. -/
def is_alphabetic (c : Char) : Bool :=
  decide (('a' ≤ c ∧ c ≤ 'z') ∨ ('A' ≤ c ∧ c ≤ 'Z'))

/-- `Lexer::new` (the file-name argument is omitted). -/
def Lexer.new : Lexer :=
  { full_tokens := [], buf := [], current_char := none,
    proposed_token_type := none,
    start_line := 1, end_line := 1, start_index := 0, end_index := 0 }

/-- `Lexer::push_char`: append to the partial lexeme and advance the end
position (newline bumps the line and resets the column). -/
def push_char (s : Lexer) (c : Char) : Lexer :=
  if c = '\n' then
    { s with buf := s.buf ++ [c], end_line := s.end_line + 1, end_index := 0 }
  else
    { s with buf := s.buf ++ [c], end_index := s.end_index + 1 }

/-- The token assembled by `Lexer::push_token`: current buffer and span. -/
def mk_token (s : Lexer) (tt : TokenType) : Token :=
  { token_type := tt, value := s.buf, start_line := s.start_line,
    end_line := s.end_line, start_index := s.start_index, end_index := s.end_index }

/-- The state produced by `Lexer::push_token` when the proposed type is
`tt`: move the buffer into a finished token, advance the start position to
the end position, clear the proposal. -/
def finalize_state (s : Lexer) (tt : TokenType) : Lexer :=
  { s with
    full_tokens := s.full_tokens ++ [mk_token s tt],
    buf := [],
    start_line := s.end_line, start_index := s.end_index,
    proposed_token_type := none }

/-- `Lexer::push_token`; `none` is the `expect` panic on a missing
proposed token type. -/
def push_token (s : Lexer) : Option Lexer :=
  match s.proposed_token_type with
  | none => none
  | some tt => some (finalize_state s tt)

/-- Run `push_token` and continue with `k`, turning the `expect` panic into
a `fatal` outcome. -/
def push_token_f (s : Lexer) (k : Lexer → ConsumeResult) : ConsumeResult :=
  match push_token s with
  | none => ConsumeResult.fatal "push called before token was type was decided"
  | some t => k t

/-- `Lexer::construct_error`: package the current partial lexeme and span. -/
def construct_error (s : Lexer) (e_type : LexErrorType) : LexError :=
  { error_type := e_type, error_lexeme := s.buf,
    start_line := s.start_line, end_line := s.end_line,
    start_index := s.start_index, end_index := s.end_index }

/-- `Lexer::construct_error_w_char`: as `construct_error` but with the
current character appended to the offending lexeme first
(`unwrap_or_default` yields the NUL character when unset). -/
def construct_error_w_char (s : Lexer) (e_type : LexErrorType) : LexError :=
  construct_error { s with buf := s.buf ++ [s.current_char.getD (Char.ofNat 0)] } e_type

/-- `Lexer::consume_char`, with explicit fuel bounding the re-dispatch
recursion.  Mirrors the dispatch on `proposed_token_type` of the source
branch by branch. -/
def consume_char_aux : Nat → Lexer → Char → ConsumeResult
  | 0, _, _ => ConsumeResult.fatal "recursion limit"
  | fuel + 1, s0, current_char =>
    let s : Lexer := { s0 with current_char := some current_char }
    match s0.proposed_token_type with
    | some TokenType.BinLiteral =>
      if current_char ∈ bin_chars then
        ConsumeResult.ok (push_char s current_char)
      else if is_literal_terminator current_char then
        match s.buf.getLast? with
        | none => ConsumeResult.fatal "last called on empty token buffer"
        | some last =>
          if last = 'b' then
            ConsumeResult.err (construct_error_w_char s LexErrorType.EmptyBinLiteral)
          else
            push_token_f s (fun t => consume_char_aux fuel t current_char)
      else
        ConsumeResult.err (construct_error_w_char s LexErrorType.MalformedBinLiteral)
    | some TokenType.HexLiteral =>
      if current_char ∈ hex_chars then
        ConsumeResult.ok (push_char s current_char)
      else if current_char ∈ upper_hex_chars then
        ConsumeResult.err (construct_error_w_char s LexErrorType.WrongHexCase)
      else if is_literal_terminator current_char then
        match s.buf.getLast? with
        | none => ConsumeResult.fatal "last called on empty token buffer"
        | some last =>
          if last = 'x' then
            ConsumeResult.err (construct_error s LexErrorType.EmptyHexLiteral)
          else
            push_token_f s (fun t => consume_char_aux fuel t current_char)
      else
        ConsumeResult.err (construct_error_w_char s LexErrorType.MalformedHexLiteral)
    | some (TokenType.DecimalLiteral has_decimal_point) =>
      if s.buf = ['0'] ∧ current_char = 'b' then
        ConsumeResult.ok
          (push_char { s with proposed_token_type := some TokenType.BinLiteral } current_char)
      else if s.buf = ['0'] ∧ current_char = 'x' then
        ConsumeResult.ok
          (push_char { s with proposed_token_type := some TokenType.HexLiteral } current_char)
      else if current_char ∈ dec_chars then
        ConsumeResult.ok (push_char s current_char)
      else if current_char = '.' then
        if has_decimal_point then
          ConsumeResult.err (construct_error_w_char s LexErrorType.MultipleDecimalPoints)
        else
          ConsumeResult.ok
            (push_char { s with proposed_token_type := some (TokenType.DecimalLiteral true) }
              current_char)
      else if is_literal_terminator current_char then
        match s.buf.getLast? with
        | none => ConsumeResult.fatal "last called on empty token buffer"
        | some last =>
          if last = '.' then
            ConsumeResult.err (construct_error_w_char s LexErrorType.TrailingDPoint)
          else
            push_token_f s (fun t => consume_char_aux fuel t current_char)
      else
        ConsumeResult.err (construct_error_w_char s LexErrorType.MalformedDecLiteral)
    | some (TokenType.StringLiteral escaped) =>
      if current_char = quoteChar ∧ escaped = false then
        push_token_f (push_char s current_char) ConsumeResult.ok
      else
        ConsumeResult.ok (push_char s current_char)
    | some TokenType.LineComment =>
      if current_char = '\n' then
        push_token_f s (fun t => consume_char_aux fuel t current_char)
      else
        ConsumeResult.ok (push_char s current_char)
    | some (TokenType.Operator op) =>
      match op with
      | Operator.Divide =>
        if current_char = '/' then
          ConsumeResult.ok
            (push_char { s with proposed_token_type := some TokenType.LineComment } current_char)
        else
          push_token_f s (fun t => consume_char_aux fuel t current_char)
      | _ => ConsumeResult.fatal "unterminated operator token"
    | some TokenType.Whitespace =>
      if current_char = ' ' then
        ConsumeResult.ok (push_char s current_char)
      else
        push_token_f s (fun t => consume_char_aux fuel t current_char)
    | some TokenType.Identifier =>
      if is_alphabetic current_char then
        ConsumeResult.ok (push_char s current_char)
      else
        push_token_f s (fun t => consume_char_aux fuel t current_char)
    | some TokenType.Equals =>
      if current_char = '=' then
        push_token_f
          (push_char { s with proposed_token_type := some (TokenType.Operator Operator.Equals) }
            current_char)
          ConsumeResult.ok
      else
        push_token_f s (fun t => consume_char_aux fuel t current_char)
    | some TokenType.LeftBrace | some TokenType.RightBrace
    | some TokenType.LeftParen | some TokenType.RightParen
    | some TokenType.Newline | some TokenType.EndOfFile =>
      ConsumeResult.fatal "Unexpected partial token"
    | none =>
      if '0' ≤ current_char ∧ current_char ≤ '9' then
        ConsumeResult.ok
          (push_char { s with proposed_token_type := some (TokenType.DecimalLiteral false) }
            current_char)
      else if current_char = quoteChar then
        ConsumeResult.ok
          (push_char { s with proposed_token_type := some (TokenType.StringLiteral false) }
            current_char)
      else if current_char = squoteChar then
        ConsumeResult.err (construct_error_w_char s LexErrorType.WrongQuotes)
      else if current_char = '+' then
        push_token_f
          (push_char { s with proposed_token_type := some (TokenType.Operator Operator.Plus) }
            current_char)
          ConsumeResult.ok
      else if current_char = '-' then
        push_token_f
          (push_char { s with proposed_token_type := some (TokenType.Operator Operator.Minus) }
            current_char)
          ConsumeResult.ok
      else if current_char = '*' then
        push_token_f
          (push_char { s with proposed_token_type := some (TokenType.Operator Operator.Multiply) }
            current_char)
          ConsumeResult.ok
      else if current_char = '/' then
        ConsumeResult.ok
          (push_char { s with proposed_token_type := some (TokenType.Operator Operator.Divide) }
            current_char)
      else if current_char = '(' then
        push_token_f
          (push_char { s with proposed_token_type := some TokenType.LeftParen } current_char)
          ConsumeResult.ok
      else if current_char = ')' then
        push_token_f
          (push_char { s with proposed_token_type := some TokenType.RightParen } current_char)
          ConsumeResult.ok
      else if current_char = lbraceChar then
        push_token_f
          (push_char { s with proposed_token_type := some TokenType.LeftBrace } current_char)
          ConsumeResult.ok
      else if current_char = rbraceChar then
        push_token_f
          (push_char { s with proposed_token_type := some TokenType.RightBrace } current_char)
          ConsumeResult.ok
      else if ('a' ≤ current_char ∧ current_char ≤ 'z') ∨
              ('A' ≤ current_char ∧ current_char ≤ 'Z') then
        ConsumeResult.ok
          (push_char { s with proposed_token_type := some TokenType.Identifier } current_char)
      else if current_char = ' ' then
        ConsumeResult.ok
          (push_char { s with proposed_token_type := some TokenType.Whitespace } current_char)
      else if current_char = '\n' then
        push_token_f
          (push_char { s with proposed_token_type := some TokenType.Newline } current_char)
          ConsumeResult.ok
      else if current_char = '=' then
        ConsumeResult.ok
          (push_char { s with proposed_token_type := some TokenType.Equals } current_char)
      else
        ConsumeResult.err (construct_error_w_char s LexErrorType.UnexpectedCharacter)

/-- `Lexer::consume_char` (fuel 2 is proved sufficient below). -/
def Lexer.consume_char (s : Lexer) (c : Char) : ConsumeResult :=
  consume_char_aux 2 s c

/-- The character loop of `Lexer::lex`. -/
def lexLoop : Lexer → List Char → ConsumeResult
  | s, [] => ConsumeResult.ok s
  | s, c :: rest =>
    match Lexer.consume_char s c with
    | ConsumeResult.ok s1 => lexLoop s1 rest
    | ConsumeResult.err e => ConsumeResult.err e
    | ConsumeResult.fatal m => ConsumeResult.fatal m

/-- `Lexer::lex`: run the loop, then resolve the end of input. -/
def Lexer.lex (s : Lexer) (source : List Char) : LexResult :=
  match lexLoop s source with
  | ConsumeResult.err e => LexResult.err e
  | ConsumeResult.fatal m => LexResult.fatal m
  | ConsumeResult.ok s1 =>
    match s1.proposed_token_type with
    | some (TokenType.StringLiteral _) =>
      LexResult.err (construct_error s1 LexErrorType.UnexpectedEOFString)
    | none =>
      match push_token { s1 with proposed_token_type := some TokenType.EndOfFile } with
      | none => LexResult.fatal "push called before token was type was decided"
      | some s2 => LexResult.ok s2.full_tokens
    | some _ =>
      LexResult.err (construct_error s1 LexErrorType.MissingTrailingNewLine)

/-- Lex a whole string from a fresh lexer. -/
def lexString (source : String) : LexResult :=
  Lexer.lex Lexer.new source.toList

/-- Lex a character list from a fresh lexer. -/
def lexList (source : List Char) : LexResult :=
  Lexer.lex Lexer.new source

/-- The error type of a lex result, when it is an error. -/
def lexErrType (r : LexResult) : Option LexErrorType :=
  match r with
  | LexResult.err e => some e.error_type
  | _ => none

/-! ## Re-dispatch depth: fuel 2 always suffices -/

theorem push_token_proposed_none {s t : Lexer} (h : push_token s = some t) :
    t.proposed_token_type = none := by
  unfold push_token at h
  cases hp : s.proposed_token_type with
  | none => rw [hp] at h; cases h
  | some tt => rw [hp] at h; cases h; rfl

theorem push_token_f_congr (s : Lexer) (k1 k2 : Lexer → ConsumeResult)
    (h : ∀ t, push_token s = some t → k1 t = k2 t) :
    push_token_f s k1 = push_token_f s k2 := by
  unfold push_token_f
  cases hp : push_token s with
  | none => rfl
  | some t => exact h t hp

theorem consume_char_aux_none_fuel (f g : Nat) (s : Lexer) (c : Char)
    (h : s.proposed_token_type = none) :
    consume_char_aux (f + 1) s c = consume_char_aux (g + 1) s c := by
  simp only [consume_char_aux, h]

theorem consume_char_aux_fuel_succ (f : Nat) (s : Lexer) (c : Char) :
    consume_char_aux (f + 2) s c = consume_char_aux 2 s c := by
  cases hp : s.proposed_token_type with
  | none => exact consume_char_aux_none_fuel (f + 1) 1 s c hp
  | some tt =>
    cases tt <;>
      first
      | (rename_i b; cases b <;>
          · simp only [consume_char_aux, hp]
            repeat'
              first
              | rfl
              | (apply push_token_f_congr; intro t ht;
                  exact consume_char_aux_none_fuel f 0 t c (push_token_proposed_none ht))
              | split)
      | (rename_i op; cases op <;>
          · simp only [consume_char_aux, hp]
            repeat'
              first
              | rfl
              | (apply push_token_f_congr; intro t ht;
                  exact consume_char_aux_none_fuel f 0 t c (push_token_proposed_none ht))
              | split)
      | · simp only [consume_char_aux, hp]
          repeat'
            first
            | rfl
            | (apply push_token_f_congr; intro t ht;
                exact consume_char_aux_none_fuel f 0 t c (push_token_proposed_none ht))
            | split

theorem push_char_full_tokens (s : Lexer) (c : Char) :
    (push_char s c).full_tokens = s.full_tokens := by
  unfold push_char; split <;> rfl

theorem push_char_buf (s : Lexer) (c : Char) :
    (push_char s c).buf = s.buf ++ [c] := by
  unfold push_char; split <;> rfl

theorem push_char_proposed (s : Lexer) (c : Char) :
    (push_char s c).proposed_token_type = s.proposed_token_type := by
  unfold push_char; split <;> rfl

theorem push_char_current (s : Lexer) (c : Char) :
    (push_char s c).current_char = s.current_char := by
  unfold push_char; split <;> rfl

theorem push_char_start_line (s : Lexer) (c : Char) :
    (push_char s c).start_line = s.start_line := by
  unfold push_char; split <;> rfl

theorem push_char_start_index (s : Lexer) (c : Char) :
    (push_char s c).start_index = s.start_index := by
  unfold push_char; split <;> rfl

attribute [simp] push_char_full_tokens push_char_buf push_char_proposed
  push_char_current push_char_start_line push_char_start_index

@[simp] theorem finalize_state_proposed (s : Lexer) (tt : TokenType) :
    (finalize_state s tt).proposed_token_type = none := rfl

@[simp] theorem finalize_state_buf (s : Lexer) (tt : TokenType) :
    (finalize_state s tt).buf = [] := rfl

@[simp] theorem finalize_state_full_tokens (s : Lexer) (tt : TokenType) :
    (finalize_state s tt).full_tokens = s.full_tokens ++ [mk_token s tt] := rfl

@[simp] theorem finalize_state_start_line (s : Lexer) (tt : TokenType) :
    (finalize_state s tt).start_line = s.end_line := rfl

@[simp] theorem finalize_state_start_index (s : Lexer) (tt : TokenType) :
    (finalize_state s tt).start_index = s.end_index := rfl

@[simp] theorem finalize_state_end_line (s : Lexer) (tt : TokenType) :
    (finalize_state s tt).end_line = s.end_line := rfl

@[simp] theorem finalize_state_end_index (s : Lexer) (tt : TokenType) :
    (finalize_state s tt).end_index = s.end_index := rfl

@[simp] theorem mk_token_token_type (s : Lexer) (tt : TokenType) :
    (mk_token s tt).token_type = tt := rfl

@[simp] theorem mk_token_value (s : Lexer) (tt : TokenType) :
    (mk_token s tt).value = s.buf := rfl

@[simp] theorem mk_token_start_line (s : Lexer) (tt : TokenType) :
    (mk_token s tt).start_line = s.start_line := rfl

@[simp] theorem mk_token_start_index (s : Lexer) (tt : TokenType) :
    (mk_token s tt).start_index = s.start_index := rfl

@[simp] theorem mk_token_end_line (s : Lexer) (tt : TokenType) :
    (mk_token s tt).end_line = s.end_line := rfl

@[simp] theorem mk_token_end_index (s : Lexer) (tt : TokenType) :
    (mk_token s tt).end_index = s.end_index := rfl

/-! ### Equations for the idle (`None`) dispatch branch

The idle branch is a 15-way classification of the current character; the
following equations compute it one class at a time.  `set_cc`, `start_tok`
and `emit_tok` abbreviate the states built by that branch: recording the
current character, proposing a token type and pushing the character, and
additionally finalizing a one-character token. -/

def set_cc (s : Lexer) (c : Char) : Lexer := { s with current_char := some c }

def start_tok (s : Lexer) (c : Char) (tt : TokenType) : Lexer :=
  push_char { s with current_char := some c, proposed_token_type := some tt } c

def emit_tok (s : Lexer) (c : Char) (tt : TokenType) : Lexer :=
  finalize_state (start_tok s c tt) tt

@[simp] theorem set_cc_proposed (s : Lexer) (c : Char) :
    (set_cc s c).proposed_token_type = s.proposed_token_type := rfl

@[simp] theorem set_cc_buf (s : Lexer) (c : Char) : (set_cc s c).buf = s.buf := rfl

@[simp] theorem set_cc_full_tokens (s : Lexer) (c : Char) :
    (set_cc s c).full_tokens = s.full_tokens := rfl

@[simp] theorem start_tok_proposed (s : Lexer) (c : Char) (tt : TokenType) :
    (start_tok s c tt).proposed_token_type = some tt := by
  unfold start_tok; simp

@[simp] theorem start_tok_buf (s : Lexer) (c : Char) (tt : TokenType) :
    (start_tok s c tt).buf = s.buf ++ [c] := by
  unfold start_tok; simp

@[simp] theorem start_tok_full_tokens (s : Lexer) (c : Char) (tt : TokenType) :
    (start_tok s c tt).full_tokens = s.full_tokens := by
  unfold start_tok; simp

@[simp] theorem start_tok_start_line (s : Lexer) (c : Char) (tt : TokenType) :
    (start_tok s c tt).start_line = s.start_line := by
  unfold start_tok; simp

@[simp] theorem start_tok_start_index (s : Lexer) (c : Char) (tt : TokenType) :
    (start_tok s c tt).start_index = s.start_index := by
  unfold start_tok; simp

@[simp] theorem emit_tok_proposed (s : Lexer) (c : Char) (tt : TokenType) :
    (emit_tok s c tt).proposed_token_type = none := rfl

@[simp] theorem emit_tok_buf (s : Lexer) (c : Char) (tt : TokenType) :
    (emit_tok s c tt).buf = [] := rfl

theorem consume_idle_digit (f : Nat) (s : Lexer) (c : Char)
    (h : s.proposed_token_type = none) (hc : '0' ≤ c ∧ c ≤ '9') :
    consume_char_aux (f + 1) s c =
      ConsumeResult.ok (start_tok s c (TokenType.DecimalLiteral false)) := by
  simp only [consume_char_aux, h]
  rw [if_pos hc]
  rfl

theorem consume_idle_quote (f : Nat) (s : Lexer) (c : Char)
    (h : s.proposed_token_type = none) (hc : c = quoteChar) :
    consume_char_aux (f + 1) s c =
      ConsumeResult.ok (start_tok s c (TokenType.StringLiteral false)) := by
  have h1 : ¬('0' ≤ c ∧ c ≤ '9') := by rw [hc]; decide
  simp only [consume_char_aux, h]
  rw [if_neg h1, if_pos hc]
  rfl

theorem consume_idle_squote (f : Nat) (s : Lexer) (c : Char)
    (h : s.proposed_token_type = none) (hc : c = squoteChar) :
    consume_char_aux (f + 1) s c =
      ConsumeResult.err (construct_error_w_char (set_cc s c) LexErrorType.WrongQuotes) := by
  have h1 : ¬('0' ≤ c ∧ c ≤ '9') := by rw [hc]; decide
  have h2 : c ≠ quoteChar := by rw [hc]; decide
  simp only [consume_char_aux, h]
  rw [if_neg h1, if_neg h2, if_pos hc]
  rfl

theorem consume_idle_plus (f : Nat) (s : Lexer) (c : Char)
    (h : s.proposed_token_type = none) (hc : c = '+') :
    consume_char_aux (f + 1) s c =
      ConsumeResult.ok (emit_tok s c (TokenType.Operator Operator.Plus)) := by
  have h1 : ¬('0' ≤ c ∧ c ≤ '9') := by rw [hc]; decide
  have h2 : c ≠ quoteChar := by rw [hc]; decide
  have h3 : c ≠ squoteChar := by rw [hc]; decide
  simp only [consume_char_aux, h]
  rw [if_neg h1, if_neg h2, if_neg h3, if_pos hc]
  simp only [push_token_f, push_token, start_tok_proposed, push_char_proposed]
  rfl

theorem consume_idle_minus (f : Nat) (s : Lexer) (c : Char)
    (h : s.proposed_token_type = none) (hc : c = '-') :
    consume_char_aux (f + 1) s c =
      ConsumeResult.ok (emit_tok s c (TokenType.Operator Operator.Minus)) := by
  have h1 : ¬('0' ≤ c ∧ c ≤ '9') := by rw [hc]; decide
  have h2 : c ≠ quoteChar := by rw [hc]; decide
  have h3 : c ≠ squoteChar := by rw [hc]; decide
  have h4 : c ≠ '+' := by rw [hc]; decide
  simp only [consume_char_aux, h]
  rw [if_neg h1, if_neg h2, if_neg h3, if_neg h4, if_pos hc]
  simp only [push_token_f, push_token, start_tok_proposed, push_char_proposed]
  rfl

theorem consume_idle_star (f : Nat) (s : Lexer) (c : Char)
    (h : s.proposed_token_type = none) (hc : c = '*') :
    consume_char_aux (f + 1) s c =
      ConsumeResult.ok (emit_tok s c (TokenType.Operator Operator.Multiply)) := by
  have h1 : ¬('0' ≤ c ∧ c ≤ '9') := by rw [hc]; decide
  have h2 : c ≠ quoteChar := by rw [hc]; decide
  have h3 : c ≠ squoteChar := by rw [hc]; decide
  have h4 : c ≠ '+' := by rw [hc]; decide
  have h5 : c ≠ '-' := by rw [hc]; decide
  simp only [consume_char_aux, h]
  rw [if_neg h1, if_neg h2, if_neg h3, if_neg h4, if_neg h5, if_pos hc]
  simp only [push_token_f, push_token, start_tok_proposed, push_char_proposed]
  rfl

theorem consume_idle_slash (f : Nat) (s : Lexer) (c : Char)
    (h : s.proposed_token_type = none) (hc : c = '/') :
    consume_char_aux (f + 1) s c =
      ConsumeResult.ok (start_tok s c (TokenType.Operator Operator.Divide)) := by
  have h1 : ¬('0' ≤ c ∧ c ≤ '9') := by rw [hc]; decide
  have h2 : c ≠ quoteChar := by rw [hc]; decide
  have h3 : c ≠ squoteChar := by rw [hc]; decide
  have h4 : c ≠ '+' := by rw [hc]; decide
  have h5 : c ≠ '-' := by rw [hc]; decide
  have h6 : c ≠ '*' := by rw [hc]; decide
  simp only [consume_char_aux, h]
  rw [if_neg h1, if_neg h2, if_neg h3, if_neg h4, if_neg h5, if_neg h6, if_pos hc]
  rfl

theorem consume_idle_lparen (f : Nat) (s : Lexer) (c : Char)
    (h : s.proposed_token_type = none) (hc : c = '(') :
    consume_char_aux (f + 1) s c =
      ConsumeResult.ok (emit_tok s c TokenType.LeftParen) := by
  have h1 : ¬('0' ≤ c ∧ c ≤ '9') := by rw [hc]; decide
  have h2 : c ≠ quoteChar := by rw [hc]; decide
  have h3 : c ≠ squoteChar := by rw [hc]; decide
  have h4 : c ≠ '+' := by rw [hc]; decide
  have h5 : c ≠ '-' := by rw [hc]; decide
  have h6 : c ≠ '*' := by rw [hc]; decide
  have h7 : c ≠ '/' := by rw [hc]; decide
  simp only [consume_char_aux, h]
  rw [if_neg h1, if_neg h2, if_neg h3, if_neg h4, if_neg h5, if_neg h6, if_neg h7,
    if_pos hc]
  simp only [push_token_f, push_token, start_tok_proposed, push_char_proposed]
  rfl

theorem consume_idle_rparen (f : Nat) (s : Lexer) (c : Char)
    (h : s.proposed_token_type = none) (hc : c = ')') :
    consume_char_aux (f + 1) s c =
      ConsumeResult.ok (emit_tok s c TokenType.RightParen) := by
  have h1 : ¬('0' ≤ c ∧ c ≤ '9') := by rw [hc]; decide
  have h2 : c ≠ quoteChar := by rw [hc]; decide
  have h3 : c ≠ squoteChar := by rw [hc]; decide
  have h4 : c ≠ '+' := by rw [hc]; decide
  have h5 : c ≠ '-' := by rw [hc]; decide
  have h6 : c ≠ '*' := by rw [hc]; decide
  have h7 : c ≠ '/' := by rw [hc]; decide
  have h8 : c ≠ '(' := by rw [hc]; decide
  simp only [consume_char_aux, h]
  rw [if_neg h1, if_neg h2, if_neg h3, if_neg h4, if_neg h5, if_neg h6, if_neg h7,
    if_neg h8, if_pos hc]
  simp only [push_token_f, push_token, start_tok_proposed, push_char_proposed]
  rfl

theorem consume_idle_lbrace (f : Nat) (s : Lexer) (c : Char)
    (h : s.proposed_token_type = none) (hc : c = lbraceChar) :
    consume_char_aux (f + 1) s c =
      ConsumeResult.ok (emit_tok s c TokenType.LeftBrace) := by
  have h1 : ¬('0' ≤ c ∧ c ≤ '9') := by rw [hc]; decide
  have h2 : c ≠ quoteChar := by rw [hc]; decide
  have h3 : c ≠ squoteChar := by rw [hc]; decide
  have h4 : c ≠ '+' := by rw [hc]; decide
  have h5 : c ≠ '-' := by rw [hc]; decide
  have h6 : c ≠ '*' := by rw [hc]; decide
  have h7 : c ≠ '/' := by rw [hc]; decide
  have h8 : c ≠ '(' := by rw [hc]; decide
  have h9 : c ≠ ')' := by rw [hc]; decide
  simp only [consume_char_aux, h]
  rw [if_neg h1, if_neg h2, if_neg h3, if_neg h4, if_neg h5, if_neg h6, if_neg h7,
    if_neg h8, if_neg h9, if_pos hc]
  simp only [push_token_f, push_token, start_tok_proposed, push_char_proposed]
  rfl

theorem consume_idle_rbrace (f : Nat) (s : Lexer) (c : Char)
    (h : s.proposed_token_type = none) (hc : c = rbraceChar) :
    consume_char_aux (f + 1) s c =
      ConsumeResult.ok (emit_tok s c TokenType.RightBrace) := by
  have h1 : ¬('0' ≤ c ∧ c ≤ '9') := by rw [hc]; decide
  have h2 : c ≠ quoteChar := by rw [hc]; decide
  have h3 : c ≠ squoteChar := by rw [hc]; decide
  have h4 : c ≠ '+' := by rw [hc]; decide
  have h5 : c ≠ '-' := by rw [hc]; decide
  have h6 : c ≠ '*' := by rw [hc]; decide
  have h7 : c ≠ '/' := by rw [hc]; decide
  have h8 : c ≠ '(' := by rw [hc]; decide
  have h9 : c ≠ ')' := by rw [hc]; decide
  have h10 : c ≠ lbraceChar := by rw [hc]; decide
  simp only [consume_char_aux, h]
  rw [if_neg h1, if_neg h2, if_neg h3, if_neg h4, if_neg h5, if_neg h6, if_neg h7,
    if_neg h8, if_neg h9, if_neg h10, if_pos hc]
  simp only [push_token_f, push_token, start_tok_proposed, push_char_proposed]
  rfl

theorem consume_idle_letter (f : Nat) (s : Lexer) (c : Char)
    (h : s.proposed_token_type = none)
    (hr : ('a' ≤ c ∧ c ≤ 'z') ∨ ('A' ≤ c ∧ c ≤ 'Z')) :
    consume_char_aux (f + 1) s c =
      ConsumeResult.ok (start_tok s c TokenType.Identifier) := by
  have h1 : ¬('0' ≤ c ∧ c ≤ '9') := by
    rintro ⟨_, h2⟩
    rcases hr with ⟨ha, _⟩ | ⟨ha, _⟩
    · exact absurd (le_trans ha h2) (by decide)
    · exact absurd (le_trans ha h2) (by decide)
  have h2 : c ≠ quoteChar := by rintro rfl; revert hr; decide
  have h3 : c ≠ squoteChar := by rintro rfl; revert hr; decide
  have h4 : c ≠ '+' := by rintro rfl; revert hr; decide
  have h5 : c ≠ '-' := by rintro rfl; revert hr; decide
  have h6 : c ≠ '*' := by rintro rfl; revert hr; decide
  have h7 : c ≠ '/' := by rintro rfl; revert hr; decide
  have h8 : c ≠ '(' := by rintro rfl; revert hr; decide
  have h9 : c ≠ ')' := by rintro rfl; revert hr; decide
  have h10 : c ≠ lbraceChar := by rintro rfl; revert hr; decide
  have h11 : c ≠ rbraceChar := by rintro rfl; revert hr; decide
  simp only [consume_char_aux, h]
  rw [if_neg h1, if_neg h2, if_neg h3, if_neg h4, if_neg h5, if_neg h6, if_neg h7,
    if_neg h8, if_neg h9, if_neg h10, if_neg h11, if_pos hr]
  rfl

theorem consume_idle_space (f : Nat) (s : Lexer) (c : Char)
    (h : s.proposed_token_type = none) (hc : c = ' ') :
    consume_char_aux (f + 1) s c =
      ConsumeResult.ok (start_tok s c TokenType.Whitespace) := by
  have h1 : ¬('0' ≤ c ∧ c ≤ '9') := by rw [hc]; decide
  have h2 : c ≠ quoteChar := by rw [hc]; decide
  have h3 : c ≠ squoteChar := by rw [hc]; decide
  have h4 : c ≠ '+' := by rw [hc]; decide
  have h5 : c ≠ '-' := by rw [hc]; decide
  have h6 : c ≠ '*' := by rw [hc]; decide
  have h7 : c ≠ '/' := by rw [hc]; decide
  have h8 : c ≠ '(' := by rw [hc]; decide
  have h9 : c ≠ ')' := by rw [hc]; decide
  have h10 : c ≠ lbraceChar := by rw [hc]; decide
  have h11 : c ≠ rbraceChar := by rw [hc]; decide
  have h12 : ¬(('a' ≤ c ∧ c ≤ 'z') ∨ ('A' ≤ c ∧ c ≤ 'Z')) := by rw [hc]; decide
  simp only [consume_char_aux, h]
  rw [if_neg h1, if_neg h2, if_neg h3, if_neg h4, if_neg h5, if_neg h6, if_neg h7,
    if_neg h8, if_neg h9, if_neg h10, if_neg h11, if_neg h12, if_pos hc]
  rfl

theorem consume_idle_newline (f : Nat) (s : Lexer) (c : Char)
    (h : s.proposed_token_type = none) (hc : c = '\n') :
    consume_char_aux (f + 1) s c =
      ConsumeResult.ok (emit_tok s c TokenType.Newline) := by
  have h1 : ¬('0' ≤ c ∧ c ≤ '9') := by rw [hc]; decide
  have h2 : c ≠ quoteChar := by rw [hc]; decide
  have h3 : c ≠ squoteChar := by rw [hc]; decide
  have h4 : c ≠ '+' := by rw [hc]; decide
  have h5 : c ≠ '-' := by rw [hc]; decide
  have h6 : c ≠ '*' := by rw [hc]; decide
  have h7 : c ≠ '/' := by rw [hc]; decide
  have h8 : c ≠ '(' := by rw [hc]; decide
  have h9 : c ≠ ')' := by rw [hc]; decide
  have h10 : c ≠ lbraceChar := by rw [hc]; decide
  have h11 : c ≠ rbraceChar := by rw [hc]; decide
  have h12 : ¬(('a' ≤ c ∧ c ≤ 'z') ∨ ('A' ≤ c ∧ c ≤ 'Z')) := by rw [hc]; decide
  have h13 : c ≠ ' ' := by rw [hc]; decide
  simp only [consume_char_aux, h]
  rw [if_neg h1, if_neg h2, if_neg h3, if_neg h4, if_neg h5, if_neg h6, if_neg h7,
    if_neg h8, if_neg h9, if_neg h10, if_neg h11, if_neg h12, if_neg h13, if_pos hc]
  simp only [push_token_f, push_token, start_tok_proposed, push_char_proposed]
  rfl

theorem consume_idle_eq (f : Nat) (s : Lexer) (c : Char)
    (h : s.proposed_token_type = none) (hc : c = '=') :
    consume_char_aux (f + 1) s c =
      ConsumeResult.ok (start_tok s c TokenType.Equals) := by
  have h1 : ¬('0' ≤ c ∧ c ≤ '9') := by rw [hc]; decide
  have h2 : c ≠ quoteChar := by rw [hc]; decide
  have h3 : c ≠ squoteChar := by rw [hc]; decide
  have h4 : c ≠ '+' := by rw [hc]; decide
  have h5 : c ≠ '-' := by rw [hc]; decide
  have h6 : c ≠ '*' := by rw [hc]; decide
  have h7 : c ≠ '/' := by rw [hc]; decide
  have h8 : c ≠ '(' := by rw [hc]; decide
  have h9 : c ≠ ')' := by rw [hc]; decide
  have h10 : c ≠ lbraceChar := by rw [hc]; decide
  have h11 : c ≠ rbraceChar := by rw [hc]; decide
  have h12 : ¬(('a' ≤ c ∧ c ≤ 'z') ∨ ('A' ≤ c ∧ c ≤ 'Z')) := by rw [hc]; decide
  have h13 : c ≠ ' ' := by rw [hc]; decide
  have h14 : c ≠ '\n' := by rw [hc]; decide
  simp only [consume_char_aux, h]
  rw [if_neg h1, if_neg h2, if_neg h3, if_neg h4, if_neg h5, if_neg h6, if_neg h7,
    if_neg h8, if_neg h9, if_neg h10, if_neg h11, if_neg h12, if_neg h13, if_neg h14,
    if_pos hc]
  rfl

theorem consume_idle_other (f : Nat) (s : Lexer) (c : Char)
    (h : s.proposed_token_type = none)
    (h1 : ¬('0' ≤ c ∧ c ≤ '9')) (h2 : c ≠ quoteChar) (h3 : c ≠ squoteChar)
    (h4 : c ≠ '+') (h5 : c ≠ '-') (h6 : c ≠ '*') (h7 : c ≠ '/')
    (h8 : c ≠ '(') (h9 : c ≠ ')') (h10 : c ≠ lbraceChar) (h11 : c ≠ rbraceChar)
    (h12 : ¬(('a' ≤ c ∧ c ≤ 'z') ∨ ('A' ≤ c ∧ c ≤ 'Z')))
    (h13 : c ≠ ' ') (h14 : c ≠ '\n') (h15 : c ≠ '=') :
    consume_char_aux (f + 1) s c =
      ConsumeResult.err (construct_error_w_char (set_cc s c)
        LexErrorType.UnexpectedCharacter) := by
  simp only [consume_char_aux, h]
  rw [if_neg h1, if_neg h2, if_neg h3, if_neg h4, if_neg h5, if_neg h6, if_neg h7,
    if_neg h8, if_neg h9, if_neg h10, if_neg h11, if_neg h12, if_neg h13, if_neg h14,
    if_neg h15]
  rfl

/-- Exhaustive classification of the idle branch: every character is fully
consumed with an `ok` or `err` outcome (never `fatal`, never a further
recursive call). -/
theorem consume_idle_shape (f : Nat) (s : Lexer) (c : Char)
    (h : s.proposed_token_type = none) :
    (∃ s', consume_char_aux (f + 1) s c = ConsumeResult.ok s') ∨
    (∃ e, consume_char_aux (f + 1) s c = ConsumeResult.err e) := by
  by_cases h1 : '0' ≤ c ∧ c ≤ '9'
  · exact Or.inl ⟨_, consume_idle_digit f s c h h1⟩
  by_cases h2 : c = quoteChar
  · exact Or.inl ⟨_, consume_idle_quote f s c h h2⟩
  by_cases h3 : c = squoteChar
  · exact Or.inr ⟨_, consume_idle_squote f s c h h3⟩
  by_cases h4 : c = '+'
  · exact Or.inl ⟨_, consume_idle_plus f s c h h4⟩
  by_cases h5 : c = '-'
  · exact Or.inl ⟨_, consume_idle_minus f s c h h5⟩
  by_cases h6 : c = '*'
  · exact Or.inl ⟨_, consume_idle_star f s c h h6⟩
  by_cases h7 : c = '/'
  · exact Or.inl ⟨_, consume_idle_slash f s c h h7⟩
  by_cases h8 : c = '('
  · exact Or.inl ⟨_, consume_idle_lparen f s c h h8⟩
  by_cases h9 : c = ')'
  · exact Or.inl ⟨_, consume_idle_rparen f s c h h9⟩
  by_cases h10 : c = lbraceChar
  · exact Or.inl ⟨_, consume_idle_lbrace f s c h h10⟩
  by_cases h11 : c = rbraceChar
  · exact Or.inl ⟨_, consume_idle_rbrace f s c h h11⟩
  by_cases h12 : ('a' ≤ c ∧ c ≤ 'z') ∨ ('A' ≤ c ∧ c ≤ 'Z')
  · exact Or.inl ⟨_, consume_idle_letter f s c h h12⟩
  by_cases h13 : c = ' '
  · exact Or.inl ⟨_, consume_idle_space f s c h h13⟩
  by_cases h14 : c = '\n'
  · exact Or.inl ⟨_, consume_idle_newline f s c h h14⟩
  by_cases h15 : c = '='
  · exact Or.inl ⟨_, consume_idle_eq f s c h h15⟩
  exact Or.inr ⟨_, consume_idle_other f s c h h1 h2 h3 h4 h5 h6 h7 h8 h9 h10 h11 h12
    h13 h14 h15⟩

theorem consume_none_no_fatal (f : Nat) (s : Lexer) (c : Char)
    (h : s.proposed_token_type = none) (m : String) :
    consume_char_aux (f + 1) s c ≠ ConsumeResult.fatal m := by
  intro hc
  rcases consume_idle_shape f s c h with ⟨s', hs⟩ | ⟨e, he⟩
  · rw [hs] at hc; exact ConsumeResult.noConfusion hc
  · rw [he] at hc; exact ConsumeResult.noConfusion hc

theorem consume_succ_ne_rl (fuel : Nat) (s : Lexer) (c : Char)
    (ih : ∀ t : Lexer, t.proposed_token_type = none →
      consume_char_aux fuel t c ≠ ConsumeResult.fatal "recursion limit") :
    consume_char_aux (fuel + 1) s c ≠ ConsumeResult.fatal "recursion limit" := by
  intro hc
  cases hp : s.proposed_token_type with
  | none => exact consume_none_no_fatal fuel s c hp _ hc
  | some tt =>
    cases tt <;>
    · simp only [consume_char_aux, hp] at hc
      repeat' split at hc
      all_goals
        try simp only [push_token_f, push_token, push_char_proposed] at hc
      all_goals
        first
        | exact ConsumeResult.noConfusion hc
        | (injection hc with hm; exact absurd hm (by decide))
        | (exact ih _ (finalize_state_proposed _ _) hc)

theorem consume_char_ne_recursion_limit (s : Lexer) (c : Char) :
    Lexer.consume_char s c ≠ ConsumeResult.fatal "recursion limit" :=
  consume_succ_ne_rl 1 s c (fun t ht => consume_none_no_fatal 0 t c ht _)

/-- C5: re-dispatch is bounded to one extra recursive call.  Any fuel of at
least two gives the same result as `Lexer.consume_char` (fuel 2); whenever
`push_token` finalizes, the state handed to the recursive call has tentative
kind `none`; and the fuel-2 run never exhausts its recursion budget, so
`consume_char` is total on every character. -/
theorem consume_char_redispatch_bounded :
    (∀ (f : Nat) (s : Lexer) (c : Char),
      consume_char_aux (f + 2) s c = Lexer.consume_char s c) ∧
    (∀ (s t : Lexer), push_token s = some t → t.proposed_token_type = none) ∧
    (∀ (s : Lexer) (c : Char),
      Lexer.consume_char s c ≠ ConsumeResult.fatal "recursion limit") :=
  ⟨fun f s c => consume_char_aux_fuel_succ f s c,
   fun _ _ h => push_token_proposed_none h,
   fun s c => consume_char_ne_recursion_limit s c⟩

/-- Witness for `consume_char_redispatch_bounded` at a concrete state
mid-way through the identifier `ab`. -/
theorem consume_char_redispatch_bounded_witness :
    (consume_char_aux 5
        { full_tokens := [], buf := ['a', 'b'], current_char := some 'b',
          proposed_token_type := some TokenType.Identifier,
          start_line := 1, end_line := 1, start_index := 0, end_index := 2 } '\n' =
      Lexer.consume_char
        { full_tokens := [], buf := ['a', 'b'], current_char := some 'b',
          proposed_token_type := some TokenType.Identifier,
          start_line := 1, end_line := 1, start_index := 0, end_index := 2 } '\n') ∧
    (finalize_state
        { full_tokens := [], buf := ['a', 'b'], current_char := some 'b',
          proposed_token_type := some TokenType.Identifier,
          start_line := 1, end_line := 1, start_index := 0, end_index := 2 }
        TokenType.Identifier).proposed_token_type = none :=
  ⟨consume_char_redispatch_bounded.1 3 _ '\n',
   consume_char_redispatch_bounded.2.1
     { full_tokens := [], buf := ['a', 'b'], current_char := some 'b',
       proposed_token_type := some TokenType.Identifier,
       start_line := 1, end_line := 1, start_index := 0, end_index := 2 }
     _ rfl⟩

/-! ## The lexer invariant: contiguous spans, token shapes, buffer consistency -/

/-- The tokens cover contiguous spans starting at position `(l, i)`. -/
def chain_from : Nat → Nat → List Token → Prop
  | _, _, [] => True
  | l, i, t :: ts => t.start_line = l ∧ t.start_index = i ∧
      chain_from t.end_line t.end_index ts

/-- The end position of the last token, starting from `(l, i)`. -/
def chain_end : Nat → Nat → List Token → Nat × Nat
  | l, i, [] => (l, i)
  | _, _, t :: ts => chain_end t.end_line t.end_index ts

def all_dec_digits (v : List Char) : Prop := ∀ c ∈ v, c ∈ dec_chars

def all_bin_digits (v : List Char) : Prop := ∀ c ∈ v, c ∈ bin_chars

def all_hex_digits (v : List Char) : Prop := ∀ c ∈ v, c ∈ hex_chars

def string_body (v : List Char) : Prop := ∀ c ∈ v, c ≠ quoteChar

def comment_body (v : List Char) : Prop := ∀ c ∈ v, c ≠ '\n'

def ident_body (v : List Char) : Prop := ∀ c ∈ v, is_alphabetic c = true

def space_body (v : List Char) : Prop := ∀ c ∈ v, c = ' '

/-- Shape of the partial lexeme buffer for each tentative token type: the
buffer and tentative kind are mutually consistent, and kinds that are always
finalized in the same step they are proposed never appear as tentative. -/
def buf_inv : Option TokenType → List Char → Prop
  | none, v => v = []
  | some TokenType.BinLiteral, v => ∃ ds, v = '0' :: 'b' :: ds ∧ all_bin_digits ds
  | some TokenType.HexLiteral, v => ∃ ds, v = '0' :: 'x' :: ds ∧ all_hex_digits ds
  | some (TokenType.DecimalLiteral false), v => v ≠ [] ∧ all_dec_digits v
  | some (TokenType.DecimalLiteral true), v =>
      ∃ a b, v = a ++ '.' :: b ∧ a ≠ [] ∧ all_dec_digits a ∧ all_dec_digits b
  | some (TokenType.StringLiteral false), v => ∃ m, v = quoteChar :: m ∧ string_body m
  | some (TokenType.StringLiteral true), _ => False
  | some (TokenType.Operator Operator.Divide), v => v = ['/']
  | some (TokenType.Operator _), _ => False
  | some TokenType.LineComment, v => ∃ m, v = '/' :: '/' :: m ∧ comment_body m
  | some TokenType.Equals, v => v = ['=']
  | some TokenType.Identifier, v => v ≠ [] ∧ ident_body v
  | some TokenType.Whitespace, v => v ≠ [] ∧ space_body v
  | some TokenType.LeftParen, _ => False
  | some TokenType.RightParen, _ => False
  | some TokenType.LeftBrace, _ => False
  | some TokenType.RightBrace, _ => False
  | some TokenType.Newline, _ => False
  | some TokenType.EndOfFile, _ => False

/-- Shape of the lexeme of each finalized token. -/
def token_shape : TokenType → List Char → Prop
  | TokenType.BinLiteral, v => ∃ ds, v = '0' :: 'b' :: ds ∧ ds ≠ [] ∧ all_bin_digits ds
  | TokenType.HexLiteral, v => ∃ ds, v = '0' :: 'x' :: ds ∧ ds ≠ [] ∧ all_hex_digits ds
  | TokenType.DecimalLiteral false, v => v ≠ [] ∧ all_dec_digits v
  | TokenType.DecimalLiteral true, v =>
      ∃ a b, v = a ++ '.' :: b ∧ a ≠ [] ∧ b ≠ [] ∧ all_dec_digits a ∧ all_dec_digits b
  | TokenType.StringLiteral false, v =>
      ∃ m, v = quoteChar :: m ++ [quoteChar] ∧ string_body m
  | TokenType.StringLiteral true, _ => False
  | TokenType.Operator Operator.Plus, v => v = ['+']
  | TokenType.Operator Operator.Minus, v => v = ['-']
  | TokenType.Operator Operator.Multiply, v => v = ['*']
  | TokenType.Operator Operator.Divide, v => v = ['/']
  | TokenType.Operator Operator.Equals, v => v = ['=', '=']
  | TokenType.LineComment, v => ∃ m, v = '/' :: '/' :: m ∧ comment_body m
  | TokenType.LeftParen, v => v = ['(']
  | TokenType.RightParen, v => v = [')']
  | TokenType.LeftBrace, v => v = [lbraceChar]
  | TokenType.RightBrace, v => v = [rbraceChar]
  | TokenType.Equals, v => v = ['=']
  | TokenType.Identifier, v => v ≠ [] ∧ ident_body v
  | TokenType.Whitespace, v => v ≠ [] ∧ space_body v
  | TokenType.Newline, v => v = ['\n']
  | TokenType.EndOfFile, v => v = []

/-- The reachable-state invariant of the lexer. -/
structure LexInv (s : Lexer) : Prop where
  chain : chain_from 1 0 s.full_tokens
  start_eq : (s.start_line, s.start_index) = chain_end 1 0 s.full_tokens
  shapes : ∀ t ∈ s.full_tokens, token_shape t.token_type t.value
  no_eof : ∀ t ∈ s.full_tokens, t.token_type ≠ TokenType.EndOfFile
  buf_ok : buf_inv s.proposed_token_type s.buf
  idle_zero : s.proposed_token_type = none →
    s.start_line = s.end_line ∧ s.start_index = s.end_index

theorem chain_end_append (l i : Nat) (ts : List Token) (t : Token) :
    chain_end l i (ts ++ [t]) = (t.end_line, t.end_index) := by
  induction ts generalizing l i with
  | nil => rfl
  | cons u us ih => exact ih u.end_line u.end_index

theorem chain_from_append (l i : Nat) (ts : List Token) (t : Token)
    (hc : chain_from l i ts) (he : (t.start_line, t.start_index) = chain_end l i ts) :
    chain_from l i (ts ++ [t]) := by
  induction ts generalizing l i with
  | nil =>
    have h1 : t.start_line = l := congrArg Prod.fst he
    have h2 : t.start_index = i := congrArg Prod.snd he
    exact ⟨h1, h2, trivial⟩
  | cons u us ih =>
    obtain ⟨h1, h2, h3⟩ := hc
    exact ⟨h1, h2, ih u.end_line u.end_index h3 he⟩

theorem inv_new : LexInv Lexer.new :=
  ⟨trivial, rfl, fun t ht => absurd ht (List.not_mem_nil t),
   fun t ht => absurd ht (List.not_mem_nil t), rfl, fun _ => ⟨rfl, rfl⟩⟩

/-- Finalizing a well-shaped, non-EOF token preserves the invariant, using
only the parts of the state that `push_char`/`set_cc` leave unchanged. -/
theorem finalize_inv (s : Lexer) (tt : TokenType)
    (hc : chain_from 1 0 s.full_tokens)
    (hse : (s.start_line, s.start_index) = chain_end 1 0 s.full_tokens)
    (hsh : ∀ t ∈ s.full_tokens, token_shape t.token_type t.value)
    (hne : ∀ t ∈ s.full_tokens, t.token_type ≠ TokenType.EndOfFile)
    (hshape : token_shape tt s.buf) (htt : tt ≠ TokenType.EndOfFile) :
    LexInv (finalize_state s tt) := by
  refine ⟨?_, ?_, ?_, ?_, ?_, ?_⟩
  · show chain_from 1 0 (s.full_tokens ++ [mk_token s tt])
    exact chain_from_append 1 0 s.full_tokens (mk_token s tt) hc hse
  · show (s.end_line, s.end_index) = chain_end 1 0 (s.full_tokens ++ [mk_token s tt])
    rw [chain_end_append]
    rfl
  · intro t ht
    rcases List.mem_append.1 ht with h | h
    · exact hsh t h
    · rcases List.mem_singleton.1 h with rfl
      exact hshape
  · intro t ht
    rcases List.mem_append.1 ht with h | h
    · exact hne t h
    · rcases List.mem_singleton.1 h with rfl
      exact htt
  · rfl
  · exact fun _ => ⟨rfl, rfl⟩

/-- Transfer of the invariant to a state with the same tokens and start
position, a tentative kind, and a consistent buffer. -/
theorem extend_inv (s0 s1 : Lexer) (tt : TokenType) (hI : LexInv s0)
    (ht : s1.full_tokens = s0.full_tokens)
    (hsl : s1.start_line = s0.start_line) (hsi : s1.start_index = s0.start_index)
    (hp1 : s1.proposed_token_type = some tt)
    (hbuf : buf_inv (some tt) s1.buf) : LexInv s1 := by
  refine ⟨?_, ?_, ?_, ?_, ?_, ?_⟩
  · rw [ht]; exact hI.chain
  · rw [hsl, hsi, ht]; exact hI.start_eq
  · rw [ht]; exact hI.shapes
  · rw [ht]; exact hI.no_eof
  · rw [hp1]; exact hbuf
  · intro h0; rw [hp1] at h0; cases h0

theorem mem_dec_chars_of_le {c : Char} (h1 : '0' ≤ c) (h2 : c ≤ '9') :
    c ∈ dec_chars := by
  have hv1 : 48 ≤ c.toNat := h1
  have hv2 : c.toNat ≤ 57 := h2
  have hco := Char.ofNat_toNat c
  obtain ⟨n, hn⟩ : ∃ n, c.toNat = n := ⟨_, rfl⟩
  rw [hn] at hv1 hv2 hco
  interval_cases n <;> (rw [← hco]; decide)

theorem le_of_mem_dec_chars {c : Char} (h : c ∈ dec_chars) :
    '0' ≤ c ∧ c ≤ '9' := by
  fin_cases h <;> exact ⟨by decide, by decide⟩

/-! ### Equations for the literal / identifier / comment dispatch branches -/

theorem consume_bin_digit (f : Nat) (s : Lexer) (c : Char)
    (hp : s.proposed_token_type = some TokenType.BinLiteral) (hc : c ∈ bin_chars) :
    consume_char_aux (f + 1) s c = ConsumeResult.ok (push_char (set_cc s c) c) := by
  simp only [consume_char_aux, hp]
  rw [if_pos hc]
  simp only [set_cc, hp]

theorem consume_bin_term (f : Nat) (s : Lexer) (c : Char) (l : Char)
    (hp : s.proposed_token_type = some TokenType.BinLiteral)
    (h1 : c ∉ bin_chars) (h2 : is_literal_terminator c = true)
    (hl : s.buf.getLast? = some l) (hlb : l ≠ 'b') :
    consume_char_aux (f + 1) s c =
      consume_char_aux f (finalize_state (set_cc s c) TokenType.BinLiteral) c := by
  simp only [consume_char_aux, hp]
  rw [if_neg h1, if_pos h2, hl]
  dsimp only
  rw [if_neg hlb]
  simp only [push_token_f, push_token, set_cc_proposed, hp]
  simp only [set_cc, hp]

theorem consume_bin_empty (f : Nat) (s : Lexer) (c : Char)
    (hp : s.proposed_token_type = some TokenType.BinLiteral)
    (h1 : c ∉ bin_chars) (h2 : is_literal_terminator c = true)
    (hl : s.buf.getLast? = some 'b') :
    consume_char_aux (f + 1) s c =
      ConsumeResult.err (construct_error_w_char (set_cc s c)
        LexErrorType.EmptyBinLiteral) := by
  simp only [consume_char_aux, hp]
  rw [if_neg h1, if_pos h2, hl]
  dsimp only
  rw [if_pos rfl]
  simp only [set_cc, hp]

theorem consume_bin_mal (f : Nat) (s : Lexer) (c : Char)
    (hp : s.proposed_token_type = some TokenType.BinLiteral)
    (h1 : c ∉ bin_chars) (h2 : is_literal_terminator c = false) :
    consume_char_aux (f + 1) s c =
      ConsumeResult.err (construct_error_w_char (set_cc s c)
        LexErrorType.MalformedBinLiteral) := by
  simp only [consume_char_aux, hp]
  rw [if_neg h1, if_neg (by rw [h2]; exact Bool.false_ne_true)]
  simp only [set_cc, hp]

theorem consume_hex_digit (f : Nat) (s : Lexer) (c : Char)
    (hp : s.proposed_token_type = some TokenType.HexLiteral) (hc : c ∈ hex_chars) :
    consume_char_aux (f + 1) s c = ConsumeResult.ok (push_char (set_cc s c) c) := by
  simp only [consume_char_aux, hp]
  rw [if_pos hc]
  simp only [set_cc, hp]

theorem consume_hex_upper (f : Nat) (s : Lexer) (c : Char)
    (hp : s.proposed_token_type = some TokenType.HexLiteral)
    (h1 : c ∉ hex_chars) (h2 : c ∈ upper_hex_chars) :
    consume_char_aux (f + 1) s c =
      ConsumeResult.err (construct_error_w_char (set_cc s c)
        LexErrorType.WrongHexCase) := by
  simp only [consume_char_aux, hp]
  rw [if_neg h1, if_pos h2]
  simp only [set_cc, hp]

theorem consume_hex_term (f : Nat) (s : Lexer) (c : Char) (l : Char)
    (hp : s.proposed_token_type = some TokenType.HexLiteral)
    (h1 : c ∉ hex_chars) (h2 : c ∉ upper_hex_chars)
    (h3 : is_literal_terminator c = true)
    (hl : s.buf.getLast? = some l) (hlx : l ≠ 'x') :
    consume_char_aux (f + 1) s c =
      consume_char_aux f (finalize_state (set_cc s c) TokenType.HexLiteral) c := by
  simp only [consume_char_aux, hp]
  rw [if_neg h1, if_neg h2, if_pos h3, hl]
  dsimp only
  rw [if_neg hlx]
  simp only [push_token_f, push_token, set_cc_proposed, hp]
  simp only [set_cc, hp]

theorem consume_hex_empty (f : Nat) (s : Lexer) (c : Char)
    (hp : s.proposed_token_type = some TokenType.HexLiteral)
    (h1 : c ∉ hex_chars) (h2 : c ∉ upper_hex_chars)
    (h3 : is_literal_terminator c = true)
    (hl : s.buf.getLast? = some 'x') :
    consume_char_aux (f + 1) s c =
      ConsumeResult.err (construct_error (set_cc s c) LexErrorType.EmptyHexLiteral) := by
  simp only [consume_char_aux, hp]
  rw [if_neg h1, if_neg h2, if_pos h3, hl]
  dsimp only
  rw [if_pos rfl]
  simp only [set_cc, hp]

theorem consume_hex_mal (f : Nat) (s : Lexer) (c : Char)
    (hp : s.proposed_token_type = some TokenType.HexLiteral)
    (h1 : c ∉ hex_chars) (h2 : c ∉ upper_hex_chars)
    (h3 : is_literal_terminator c = false) :
    consume_char_aux (f + 1) s c =
      ConsumeResult.err (construct_error_w_char (set_cc s c)
        LexErrorType.MalformedHexLiteral) := by
  simp only [consume_char_aux, hp]
  rw [if_neg h1, if_neg h2, if_neg (by rw [h3]; exact Bool.false_ne_true)]
  simp only [set_cc, hp]

theorem consume_dec_to_bin (f : Nat) (s : Lexer) (c : Char) (hd : Bool)
    (hp : s.proposed_token_type = some (TokenType.DecimalLiteral hd))
    (hb : s.buf = ['0']) (hc : c = 'b') :
    consume_char_aux (f + 1) s c =
      ConsumeResult.ok (start_tok s c TokenType.BinLiteral) := by
  simp only [consume_char_aux, hp]
  rw [if_pos ⟨hb, hc⟩]
  simp only [start_tok, set_cc, hp]

theorem consume_dec_to_hex (f : Nat) (s : Lexer) (c : Char) (hd : Bool)
    (hp : s.proposed_token_type = some (TokenType.DecimalLiteral hd))
    (hb : s.buf = ['0']) (hc : c = 'x') :
    consume_char_aux (f + 1) s c =
      ConsumeResult.ok (start_tok s c TokenType.HexLiteral) := by
  have h1 : ¬(s.buf = ['0'] ∧ c = 'b') := by
    rintro ⟨_, h⟩; rw [hc] at h; exact absurd h (by decide)
  simp only [consume_char_aux, hp]
  rw [if_neg h1, if_pos ⟨hb, hc⟩]
  simp only [start_tok, set_cc, hp]

theorem consume_dec_digit (f : Nat) (s : Lexer) (c : Char) (hd : Bool)
    (hp : s.proposed_token_type = some (TokenType.DecimalLiteral hd))
    (h1 : ¬(s.buf = ['0'] ∧ c = 'b')) (h2 : ¬(s.buf = ['0'] ∧ c = 'x'))
    (hc : c ∈ dec_chars) :
    consume_char_aux (f + 1) s c = ConsumeResult.ok (push_char (set_cc s c) c) := by
  simp only [consume_char_aux, hp]
  rw [if_neg h1, if_neg h2, if_pos hc]
  simp only [set_cc, hp]

theorem consume_dec_dot_mul (f : Nat) (s : Lexer) (c : Char)
    (hp : s.proposed_token_type = some (TokenType.DecimalLiteral true))
    (hc : c = '.') :
    consume_char_aux (f + 1) s c =
      ConsumeResult.err (construct_error_w_char (set_cc s c)
        LexErrorType.MultipleDecimalPoints) := by
  have h1 : ¬(s.buf = ['0'] ∧ c = 'b') := by
    rintro ⟨_, h⟩; rw [hc] at h; exact absurd h (by decide)
  have h2 : ¬(s.buf = ['0'] ∧ c = 'x') := by
    rintro ⟨_, h⟩; rw [hc] at h; exact absurd h (by decide)
  have h3 : c ∉ dec_chars := by rw [hc]; decide
  simp only [consume_char_aux, hp]
  rw [if_neg h1, if_neg h2, if_neg h3, if_pos hc, if_pos trivial]
  simp only [set_cc, hp]

theorem consume_dec_dot_set (f : Nat) (s : Lexer) (c : Char)
    (hp : s.proposed_token_type = some (TokenType.DecimalLiteral false))
    (hc : c = '.') :
    consume_char_aux (f + 1) s c =
      ConsumeResult.ok (start_tok s c (TokenType.DecimalLiteral true)) := by
  have h1 : ¬(s.buf = ['0'] ∧ c = 'b') := by
    rintro ⟨_, h⟩; rw [hc] at h; exact absurd h (by decide)
  have h2 : ¬(s.buf = ['0'] ∧ c = 'x') := by
    rintro ⟨_, h⟩; rw [hc] at h; exact absurd h (by decide)
  have h3 : c ∉ dec_chars := by rw [hc]; decide
  simp only [consume_char_aux, hp]
  rw [if_neg h1, if_neg h2, if_neg h3, if_pos hc,
    if_neg (Bool.false_ne_true)]
  simp only [start_tok, set_cc, hp]

theorem consume_dec_term_trailing (f : Nat) (s : Lexer) (c : Char) (hd : Bool)
    (hp : s.proposed_token_type = some (TokenType.DecimalLiteral hd))
    (h1 : ¬(s.buf = ['0'] ∧ c = 'b')) (h2 : ¬(s.buf = ['0'] ∧ c = 'x'))
    (h3 : c ∉ dec_chars) (h4 : c ≠ '.') (h5 : is_literal_terminator c = true)
    (hl : s.buf.getLast? = some '.') :
    consume_char_aux (f + 1) s c =
      ConsumeResult.err (construct_error_w_char (set_cc s c)
        LexErrorType.TrailingDPoint) := by
  simp only [consume_char_aux, hp]
  rw [if_neg h1, if_neg h2, if_neg h3, if_neg h4, if_pos h5, hl]
  dsimp only
  rw [if_pos rfl]
  simp only [set_cc, hp]

theorem consume_dec_term (f : Nat) (s : Lexer) (c : Char) (hd : Bool) (l : Char)
    (hp : s.proposed_token_type = some (TokenType.DecimalLiteral hd))
    (h1 : ¬(s.buf = ['0'] ∧ c = 'b')) (h2 : ¬(s.buf = ['0'] ∧ c = 'x'))
    (h3 : c ∉ dec_chars) (h4 : c ≠ '.') (h5 : is_literal_terminator c = true)
    (hl : s.buf.getLast? = some l) (hld : l ≠ '.') :
    consume_char_aux (f + 1) s c =
      consume_char_aux f (finalize_state (set_cc s c)
        (TokenType.DecimalLiteral hd)) c := by
  simp only [consume_char_aux, hp]
  rw [if_neg h1, if_neg h2, if_neg h3, if_neg h4, if_pos h5, hl]
  dsimp only
  rw [if_neg hld]
  simp only [push_token_f, push_token, set_cc_proposed, hp]
  simp only [set_cc, hp]

theorem consume_dec_mal (f : Nat) (s : Lexer) (c : Char) (hd : Bool)
    (hp : s.proposed_token_type = some (TokenType.DecimalLiteral hd))
    (h1 : ¬(s.buf = ['0'] ∧ c = 'b')) (h2 : ¬(s.buf = ['0'] ∧ c = 'x'))
    (h3 : c ∉ dec_chars) (h4 : c ≠ '.') (h5 : is_literal_terminator c = false) :
    consume_char_aux (f + 1) s c =
      ConsumeResult.err (construct_error_w_char (set_cc s c)
        LexErrorType.MalformedDecLiteral) := by
  simp only [consume_char_aux, hp]
  rw [if_neg h1, if_neg h2, if_neg h3, if_neg h4,
    if_neg (by rw [h5]; exact Bool.false_ne_true)]
  simp only [set_cc, hp]

theorem consume_string_close (f : Nat) (s : Lexer) (c : Char)
    (hp : s.proposed_token_type = some (TokenType.StringLiteral false))
    (hc : c = quoteChar) :
    consume_char_aux (f + 1) s c =
      ConsumeResult.ok (finalize_state (push_char (set_cc s c) c)
        (TokenType.StringLiteral false)) := by
  simp only [consume_char_aux, hp]
  rw [if_pos ⟨hc, trivial⟩]
  simp only [push_token_f, push_token, push_char_proposed, set_cc_proposed, hp]
  simp only [set_cc, hp]

theorem consume_string_extend (f : Nat) (s : Lexer) (c : Char) (esc : Bool)
    (hp : s.proposed_token_type = some (TokenType.StringLiteral esc))
    (hc : c ≠ quoteChar) :
    consume_char_aux (f + 1) s c = ConsumeResult.ok (push_char (set_cc s c) c) := by
  simp only [consume_char_aux, hp]
  rw [if_neg (fun h => hc h.1)]
  simp only [set_cc, hp]

theorem consume_comment_newline (f : Nat) (s : Lexer) (c : Char)
    (hp : s.proposed_token_type = some TokenType.LineComment)
    (hc : c = '\n') :
    consume_char_aux (f + 1) s c =
      consume_char_aux f (finalize_state (set_cc s c) TokenType.LineComment) c := by
  simp only [consume_char_aux, hp]
  rw [if_pos hc]
  simp only [push_token_f, push_token, set_cc_proposed, hp]
  simp only [set_cc, hp]

theorem consume_comment_extend (f : Nat) (s : Lexer) (c : Char)
    (hp : s.proposed_token_type = some TokenType.LineComment)
    (hc : c ≠ '\n') :
    consume_char_aux (f + 1) s c = ConsumeResult.ok (push_char (set_cc s c) c) := by
  simp only [consume_char_aux, hp]
  rw [if_neg hc]
  simp only [set_cc, hp]

theorem consume_divide_comment (f : Nat) (s : Lexer) (c : Char)
    (hp : s.proposed_token_type = some (TokenType.Operator Operator.Divide))
    (hc : c = '/') :
    consume_char_aux (f + 1) s c =
      ConsumeResult.ok (start_tok s c TokenType.LineComment) := by
  simp only [consume_char_aux, hp]
  rw [if_pos hc]
  simp only [start_tok, set_cc, hp]

theorem consume_divide_finalize (f : Nat) (s : Lexer) (c : Char)
    (hp : s.proposed_token_type = some (TokenType.Operator Operator.Divide))
    (hc : c ≠ '/') :
    consume_char_aux (f + 1) s c =
      consume_char_aux f (finalize_state (set_cc s c)
        (TokenType.Operator Operator.Divide)) c := by
  simp only [consume_char_aux, hp]
  rw [if_neg hc]
  simp only [push_token_f, push_token, set_cc_proposed, hp]
  simp only [set_cc, hp]

theorem consume_space_extend (f : Nat) (s : Lexer) (c : Char)
    (hp : s.proposed_token_type = some TokenType.Whitespace)
    (hc : c = ' ') :
    consume_char_aux (f + 1) s c = ConsumeResult.ok (push_char (set_cc s c) c) := by
  simp only [consume_char_aux, hp]
  rw [if_pos hc]
  simp only [set_cc, hp]

theorem consume_space_finalize (f : Nat) (s : Lexer) (c : Char)
    (hp : s.proposed_token_type = some TokenType.Whitespace)
    (hc : c ≠ ' ') :
    consume_char_aux (f + 1) s c =
      consume_char_aux f (finalize_state (set_cc s c) TokenType.Whitespace) c := by
  simp only [consume_char_aux, hp]
  rw [if_neg hc]
  simp only [push_token_f, push_token, set_cc_proposed, hp]
  simp only [set_cc, hp]

theorem consume_ident_extend (f : Nat) (s : Lexer) (c : Char)
    (hp : s.proposed_token_type = some TokenType.Identifier)
    (hc : is_alphabetic c = true) :
    consume_char_aux (f + 1) s c = ConsumeResult.ok (push_char (set_cc s c) c) := by
  simp only [consume_char_aux, hp]
  rw [if_pos hc]
  simp only [set_cc, hp]

theorem consume_ident_finalize (f : Nat) (s : Lexer) (c : Char)
    (hp : s.proposed_token_type = some TokenType.Identifier)
    (hc : is_alphabetic c = false) :
    consume_char_aux (f + 1) s c =
      consume_char_aux f (finalize_state (set_cc s c) TokenType.Identifier) c := by
  simp only [consume_char_aux, hp]
  rw [if_neg (by rw [hc]; exact Bool.false_ne_true)]
  simp only [push_token_f, push_token, set_cc_proposed, hp]
  simp only [set_cc, hp]

theorem consume_equals_double (f : Nat) (s : Lexer) (c : Char)
    (hp : s.proposed_token_type = some TokenType.Equals)
    (hc : c = '=') :
    consume_char_aux (f + 1) s c =
      ConsumeResult.ok (emit_tok s c (TokenType.Operator Operator.Equals)) := by
  simp only [consume_char_aux, hp]
  rw [if_pos hc]
  simp only [push_token_f, push_token, push_char_proposed, set_cc_proposed, hp]
  simp only [emit_tok, finalize_state, start_tok, set_cc, hp]

theorem consume_equals_single (f : Nat) (s : Lexer) (c : Char)
    (hp : s.proposed_token_type = some TokenType.Equals)
    (hc : c ≠ '=') :
    consume_char_aux (f + 1) s c =
      consume_char_aux f (finalize_state (set_cc s c) TokenType.Equals) c := by
  simp only [consume_char_aux, hp]
  rw [if_neg hc]
  simp only [push_token_f, push_token, set_cc_proposed, hp]
  simp only [set_cc, hp]

@[simp] theorem set_cc_start_line (s : Lexer) (c : Char) :
    (set_cc s c).start_line = s.start_line := rfl

@[simp] theorem set_cc_start_index (s : Lexer) (c : Char) :
    (set_cc s c).start_index = s.start_index := rfl

theorem getLast?_cons_cons_of_ne_nil {x y : Char} {l : List Char} (h : l ≠ []) :
    (x :: y :: l).getLast? = l.getLast? := by
  cases l with
  | nil => exact absurd rfl h
  | cons a as => rw [List.getLast?_cons_cons, List.getLast?_cons_cons]

/-- A `consume_char` outcome that preserves the invariant and never panics. -/
def GoodRes (r : ConsumeResult) : Prop :=
  (∀ s', r = ConsumeResult.ok s' → LexInv s') ∧
  (∀ m, r ≠ ConsumeResult.fatal m)

theorem goodres_ok {t : Lexer} (h : LexInv t) : GoodRes (ConsumeResult.ok t) :=
  ⟨fun _ hh => by cases hh; exact h, fun _ hm => ConsumeResult.noConfusion hm⟩

theorem goodres_err {e : LexError} : GoodRes (ConsumeResult.err e) :=
  ⟨fun _ hh => ConsumeResult.noConfusion hh, fun _ hm => ConsumeResult.noConfusion hm⟩

theorem start_tok_inv (s : Lexer) (c : Char) (tt : TokenType) (hI : LexInv s)
    (hbuf : buf_inv (some tt) (s.buf ++ [c])) : LexInv (start_tok s c tt) :=
  extend_inv s (start_tok s c tt) tt hI (start_tok_full_tokens s c tt)
    (start_tok_start_line s c tt) (start_tok_start_index s c tt)
    (start_tok_proposed s c tt) (by rw [start_tok_buf]; exact hbuf)

theorem emit_tok_inv (s : Lexer) (c : Char) (tt : TokenType) (hI : LexInv s)
    (hshape : token_shape tt (s.buf ++ [c])) (htt : tt ≠ TokenType.EndOfFile) :
    LexInv (emit_tok s c tt) := by
  show LexInv (finalize_state (start_tok s c tt) tt)
  refine finalize_inv (start_tok s c tt) tt ?_ ?_ ?_ ?_ ?_ htt
  · rw [start_tok_full_tokens]; exact hI.chain
  · rw [start_tok_full_tokens, start_tok_start_line, start_tok_start_index]
    exact hI.start_eq
  · rw [start_tok_full_tokens]; exact hI.shapes
  · rw [start_tok_full_tokens]; exact hI.no_eof
  · rw [start_tok_buf]; exact hshape

/-- Preservation through the `push_char (set_cc s c) c` extension step. -/
theorem push_extend_inv (s : Lexer) (c : Char) (tt : TokenType) (hI : LexInv s)
    (hp : s.proposed_token_type = some tt)
    (hbuf : buf_inv (some tt) (s.buf ++ [c])) :
    LexInv (push_char (set_cc s c) c) := by
  refine extend_inv s (push_char (set_cc s c) c) tt hI ?_ ?_ ?_ ?_ ?_
  · rw [push_char_full_tokens, set_cc_full_tokens]
  · rw [push_char_start_line, set_cc_start_line]
  · rw [push_char_start_index, set_cc_start_index]
  · rw [push_char_proposed, set_cc_proposed, hp]
  · rw [push_char_buf, set_cc_buf]; exact hbuf

/-- Invariant for the state finalized from the extended buffer (used by the
string-closing step, which pushes the quote and finalizes together). -/
theorem push_finalize_inv (s : Lexer) (c : Char) (tt : TokenType) (hI : LexInv s)
    (hshape : token_shape tt (s.buf ++ [c])) (htt : tt ≠ TokenType.EndOfFile) :
    LexInv (finalize_state (push_char (set_cc s c) c) tt) := by
  refine finalize_inv (push_char (set_cc s c) c) tt ?_ ?_ ?_ ?_ ?_ htt
  · rw [push_char_full_tokens, set_cc_full_tokens]; exact hI.chain
  · rw [push_char_full_tokens, set_cc_full_tokens, push_char_start_line,
      set_cc_start_line, push_char_start_index, set_cc_start_index]
    exact hI.start_eq
  · rw [push_char_full_tokens, set_cc_full_tokens]; exact hI.shapes
  · rw [push_char_full_tokens, set_cc_full_tokens]; exact hI.no_eof
  · rw [push_char_buf, set_cc_buf]; exact hshape

/-- Invariant for the state finalized from the unchanged buffer (used by the
finalize-then-re-dispatch steps). -/
theorem cc_finalize_inv (s : Lexer) (c : Char) (tt : TokenType) (hI : LexInv s)
    (hshape : token_shape tt s.buf) (htt : tt ≠ TokenType.EndOfFile) :
    LexInv (finalize_state (set_cc s c) tt) := by
  refine finalize_inv (set_cc s c) tt ?_ ?_ ?_ ?_ ?_ htt
  · rw [set_cc_full_tokens]; exact hI.chain
  · rw [set_cc_full_tokens, set_cc_start_line, set_cc_start_index]
    exact hI.start_eq
  · rw [set_cc_full_tokens]; exact hI.shapes
  · rw [set_cc_full_tokens]; exact hI.no_eof
  · rw [set_cc_buf]; exact hshape

theorem consume_idle_good (f : Nat) (s : Lexer) (c : Char)
    (h : s.proposed_token_type = none) (hI : LexInv s) :
    GoodRes (consume_char_aux (f + 1) s c) := by
  have hbuf0 : s.buf = [] := by have hb := hI.buf_ok; rw [h] at hb; exact hb
  by_cases h1 : '0' ≤ c ∧ c ≤ '9'
  · rw [consume_idle_digit f s c h h1]
    refine goodres_ok (start_tok_inv s c _ hI ?_)
    rw [hbuf0, List.nil_append]
    refine ⟨List.cons_ne_nil _ _, ?_⟩
    intro x hx
    rw [List.mem_singleton] at hx
    subst hx
    exact mem_dec_chars_of_le h1.1 h1.2
  by_cases h2 : c = quoteChar
  · rw [consume_idle_quote f s c h h2]
    refine goodres_ok (start_tok_inv s c _ hI ?_)
    rw [hbuf0, List.nil_append]
    exact ⟨[], by rw [h2], fun x hx => absurd hx (List.not_mem_nil x)⟩
  by_cases h3 : c = squoteChar
  · rw [consume_idle_squote f s c h h3]
    exact goodres_err
  by_cases h4 : c = '+'
  · rw [consume_idle_plus f s c h h4]
    refine goodres_ok (emit_tok_inv s c _ hI ?_ (by intro hh; cases hh))
    rw [hbuf0, List.nil_append, h4]
    rfl
  by_cases h5 : c = '-'
  · rw [consume_idle_minus f s c h h5]
    refine goodres_ok (emit_tok_inv s c _ hI ?_ (by intro hh; cases hh))
    rw [hbuf0, List.nil_append, h5]
    rfl
  by_cases h6 : c = '*'
  · rw [consume_idle_star f s c h h6]
    refine goodres_ok (emit_tok_inv s c _ hI ?_ (by intro hh; cases hh))
    rw [hbuf0, List.nil_append, h6]
    rfl
  by_cases h7 : c = '/'
  · rw [consume_idle_slash f s c h h7]
    refine goodres_ok (start_tok_inv s c _ hI ?_)
    rw [hbuf0, List.nil_append, h7]
    rfl
  by_cases h8 : c = '('
  · rw [consume_idle_lparen f s c h h8]
    refine goodres_ok (emit_tok_inv s c _ hI ?_ (by intro hh; cases hh))
    rw [hbuf0, List.nil_append, h8]
    rfl
  by_cases h9 : c = ')'
  · rw [consume_idle_rparen f s c h h9]
    refine goodres_ok (emit_tok_inv s c _ hI ?_ (by intro hh; cases hh))
    rw [hbuf0, List.nil_append, h9]
    rfl
  by_cases h10 : c = lbraceChar
  · rw [consume_idle_lbrace f s c h h10]
    refine goodres_ok (emit_tok_inv s c _ hI ?_ (by intro hh; cases hh))
    rw [hbuf0, List.nil_append, h10]
    rfl
  by_cases h11 : c = rbraceChar
  · rw [consume_idle_rbrace f s c h h11]
    refine goodres_ok (emit_tok_inv s c _ hI ?_ (by intro hh; cases hh))
    rw [hbuf0, List.nil_append, h11]
    rfl
  by_cases h12 : ('a' ≤ c ∧ c ≤ 'z') ∨ ('A' ≤ c ∧ c ≤ 'Z')
  · rw [consume_idle_letter f s c h h12]
    refine goodres_ok (start_tok_inv s c _ hI ?_)
    rw [hbuf0, List.nil_append]
    refine ⟨List.cons_ne_nil _ _, ?_⟩
    intro x hx
    rw [List.mem_singleton] at hx
    subst hx
    exact decide_eq_true h12
  by_cases h13 : c = ' '
  · rw [consume_idle_space f s c h h13]
    refine goodres_ok (start_tok_inv s c _ hI ?_)
    rw [hbuf0, List.nil_append]
    refine ⟨List.cons_ne_nil _ _, ?_⟩
    intro x hx
    rw [List.mem_singleton] at hx
    subst hx
    exact h13
  by_cases h14 : c = '\n'
  · rw [consume_idle_newline f s c h h14]
    refine goodres_ok (emit_tok_inv s c _ hI ?_ (by intro hh; cases hh))
    rw [hbuf0, List.nil_append, h14]
    rfl
  by_cases h15 : c = '='
  · rw [consume_idle_eq f s c h h15]
    refine goodres_ok (start_tok_inv s c _ hI ?_)
    rw [hbuf0, List.nil_append, h15]
    rfl
  rw [consume_idle_other f s c h h1 h2 h3 h4 h5 h6 h7 h8 h9 h10 h11 h12 h13 h14 h15]
  exact goodres_err

theorem bin_ne_b {l : Char} (h : l ∈ bin_chars) : l ≠ 'b' := by
  fin_cases h <;> decide

theorem hex_ne_x {l : Char} (h : l ∈ hex_chars) : l ≠ 'x' := by
  fin_cases h <;> decide

theorem dec_ne_dot {l : Char} (h : l ∈ dec_chars) : l ≠ '.' := by
  fin_cases h <;> decide

theorem consume_step_good (f : Nat) (s : Lexer) (c : Char) (hI : LexInv s)
    (ih : ∀ t : Lexer, t.proposed_token_type = none → LexInv t →
      GoodRes (consume_char_aux f t c)) :
    GoodRes (consume_char_aux (f + 1) s c) := by
  cases hp : s.proposed_token_type with
  | none => exact consume_idle_good f s c hp hI
  | some tt =>
    have hb := hI.buf_ok
    rw [hp] at hb
    cases tt with
    | BinLiteral =>
      obtain ⟨ds, hds, hall⟩ := hb
      by_cases hc : c ∈ bin_chars
      · rw [consume_bin_digit f s c hp hc]
        refine goodres_ok (push_extend_inv s c _ hI hp ?_)
        refine ⟨ds ++ [c], by rw [hds]; rfl, ?_⟩
        intro x hx
        rcases List.mem_append.1 hx with h | h
        · exact hall x h
        · rw [List.mem_singleton] at h; subst h; exact hc
      · cases hterm : is_literal_terminator c with
        | true =>
          cases ds with
          | nil =>
            rw [consume_bin_empty f s c hp hc hterm (by rw [hds]; rfl)]
            exact goodres_err
          | cons d ds' =>
            have hlast : s.buf.getLast? =
                some ((d :: ds').getLast (List.cons_ne_nil d ds')) := by
              rw [hds, getLast?_cons_cons_of_ne_nil (List.cons_ne_nil d ds')]
              exact List.getLast?_eq_getLast _ _
            have hmem : (d :: ds').getLast (List.cons_ne_nil d ds') ∈ bin_chars :=
              hall _ (List.getLast_mem _)
            rw [consume_bin_term f s c _ hp hc hterm hlast (bin_ne_b hmem)]
            refine ih _ (finalize_state_proposed _ _) ?_
            refine cc_finalize_inv s c _ hI ?_ (by intro hh; cases hh)
            exact ⟨d :: ds', hds, List.cons_ne_nil d ds', hall⟩
        | false =>
          rw [consume_bin_mal f s c hp hc hterm]
          exact goodres_err
    | HexLiteral =>
      obtain ⟨ds, hds, hall⟩ := hb
      by_cases hc : c ∈ hex_chars
      · rw [consume_hex_digit f s c hp hc]
        refine goodres_ok (push_extend_inv s c _ hI hp ?_)
        refine ⟨ds ++ [c], by rw [hds]; rfl, ?_⟩
        intro x hx
        rcases List.mem_append.1 hx with h | h
        · exact hall x h
        · rw [List.mem_singleton] at h; subst h; exact hc
      · by_cases hcu : c ∈ upper_hex_chars
        · rw [consume_hex_upper f s c hp hc hcu]
          exact goodres_err
        · cases hterm : is_literal_terminator c with
          | true =>
            cases ds with
            | nil =>
              rw [consume_hex_empty f s c hp hc hcu hterm (by rw [hds]; rfl)]
              exact goodres_err
            | cons d ds' =>
              have hlast : s.buf.getLast? =
                  some ((d :: ds').getLast (List.cons_ne_nil d ds')) := by
                rw [hds, getLast?_cons_cons_of_ne_nil (List.cons_ne_nil d ds')]
                exact List.getLast?_eq_getLast _ _
              have hmem : (d :: ds').getLast (List.cons_ne_nil d ds') ∈ hex_chars :=
                hall _ (List.getLast_mem _)
              rw [consume_hex_term f s c _ hp hc hcu hterm hlast (hex_ne_x hmem)]
              refine ih _ (finalize_state_proposed _ _) ?_
              refine cc_finalize_inv s c _ hI ?_ (by intro hh; cases hh)
              exact ⟨d :: ds', hds, List.cons_ne_nil d ds', hall⟩
          | false =>
            rw [consume_hex_mal f s c hp hc hcu hterm]
            exact goodres_err
    | DecimalLiteral hd =>
      by_cases hA1 : s.buf = ['0'] ∧ c = 'b'
      · rw [consume_dec_to_bin f s c hd hp hA1.1 hA1.2]
        refine goodres_ok (start_tok_inv s c _ hI ?_)
        rw [hA1.1, hA1.2]
        exact ⟨[], rfl, fun x hx => absurd hx (List.not_mem_nil x)⟩
      · by_cases hA2 : s.buf = ['0'] ∧ c = 'x'
        · rw [consume_dec_to_hex f s c hd hp hA2.1 hA2.2]
          refine goodres_ok (start_tok_inv s c _ hI ?_)
          rw [hA2.1, hA2.2]
          exact ⟨[], rfl, fun x hx => absurd hx (List.not_mem_nil x)⟩
        · by_cases hc : c ∈ dec_chars
          · rw [consume_dec_digit f s c hd hp hA1 hA2 hc]
            refine goodres_ok (push_extend_inv s c _ hI hp ?_)
            cases hd with
            | false =>
              obtain ⟨hne, hall⟩ := hb
              refine ⟨fun hh => hne (List.append_eq_nil.1 hh).1, ?_⟩
              intro x hx
              rcases List.mem_append.1 hx with h | h
              · exact hall x h
              · rw [List.mem_singleton] at h; subst h; exact hc
            | true =>
              obtain ⟨a, b, heq, hane, halla, hallb⟩ := hb
              refine ⟨a, b ++ [c], ?_, hane, halla, ?_⟩
              · rw [heq, List.append_assoc]; rfl
              · intro x hx
                rcases List.mem_append.1 hx with h | h
                · exact hallb x h
                · rw [List.mem_singleton] at h; subst h; exact hc
          · by_cases hdot : c = '.'
            · cases hd with
              | true =>
                rw [consume_dec_dot_mul f s c hp hdot]
                exact goodres_err
              | false =>
                rw [consume_dec_dot_set f s c hp hdot]
                refine goodres_ok (start_tok_inv s c _ hI ?_)
                obtain ⟨hne, hall⟩ := hb
                exact ⟨s.buf, [], by rw [hdot], hne, hall,
                  fun x hx => absurd hx (List.not_mem_nil x)⟩
            · cases hterm : is_literal_terminator c with
              | true =>
                cases hd with
                | false =>
                  obtain ⟨hne, hall⟩ := hb
                  have hlast : s.buf.getLast? = some (s.buf.getLast hne) :=
                    List.getLast?_eq_getLast _ _
                  have hmem : s.buf.getLast hne ∈ dec_chars :=
                    hall _ (List.getLast_mem _)
                  rw [consume_dec_term f s c false _ hp hA1 hA2 hc hdot hterm hlast
                    (dec_ne_dot hmem)]
                  refine ih _ (finalize_state_proposed _ _) ?_
                  refine cc_finalize_inv s c _ hI ?_ (by intro hh; cases hh)
                  exact ⟨hne, hall⟩
                | true =>
                  obtain ⟨a, b, heq, hane, halla, hallb⟩ := hb
                  cases b with
                  | nil =>
                    have hlast : s.buf.getLast? = some '.' := by
                      rw [heq]
                      exact List.getLast?_concat a
                    rw [consume_dec_term_trailing f s c true hp hA1 hA2 hc hdot
                      hterm hlast]
                    exact goodres_err
                  | cons bb bs =>
                    have hlast : s.buf.getLast? =
                        some ((bb :: bs).getLast (List.cons_ne_nil bb bs)) := by
                      rw [heq, List.getLast?_append, List.getLast?_cons_cons]
                      rw [List.getLast?_eq_getLast (bb :: bs) (List.cons_ne_nil bb bs)]
                      rfl
                    have hmem : (bb :: bs).getLast (List.cons_ne_nil bb bs) ∈ dec_chars :=
                      hallb _ (List.getLast_mem _)
                    rw [consume_dec_term f s c true _ hp hA1 hA2 hc hdot hterm hlast
                      (dec_ne_dot hmem)]
                    refine ih _ (finalize_state_proposed _ _) ?_
                    refine cc_finalize_inv s c _ hI ?_ (by intro hh; cases hh)
                    exact ⟨a, bb :: bs, heq, hane, List.cons_ne_nil bb bs, halla, hallb⟩
              | false =>
                rw [consume_dec_mal f s c hd hp hA1 hA2 hc hdot hterm]
                exact goodres_err
    | StringLiteral esc =>
      cases esc with
      | true => exact hb.elim
      | false =>
        obtain ⟨m, hm, hbody⟩ := hb
        by_cases hc : c = quoteChar
        · rw [consume_string_close f s c hp hc]
          refine goodres_ok (push_finalize_inv s c _ hI ?_ (by intro hh; cases hh))
          exact ⟨m, by rw [hm, hc], hbody⟩
        · rw [consume_string_extend f s c false hp hc]
          refine goodres_ok (push_extend_inv s c _ hI hp ?_)
          refine ⟨m ++ [c], by rw [hm]; rfl, ?_⟩
          intro x hx
          rcases List.mem_append.1 hx with h | h
          · exact hbody x h
          · rw [List.mem_singleton] at h; subst h; exact hc
    | LineComment =>
      obtain ⟨m, hm, hbody⟩ := hb
      by_cases hc : c = '\n'
      · rw [consume_comment_newline f s c hp hc]
        refine ih _ (finalize_state_proposed _ _) ?_
        refine cc_finalize_inv s c _ hI ?_ (by intro hh; cases hh)
        exact ⟨m, hm, hbody⟩
      · rw [consume_comment_extend f s c hp hc]
        refine goodres_ok (push_extend_inv s c _ hI hp ?_)
        refine ⟨m ++ [c], by rw [hm]; rfl, ?_⟩
        intro x hx
        rcases List.mem_append.1 hx with h | h
        · exact hbody x h
        · rw [List.mem_singleton] at h; subst h; exact hc
    | Operator op =>
      cases op with
      | Divide =>
        by_cases hc : c = '/'
        · rw [consume_divide_comment f s c hp hc]
          refine goodres_ok (start_tok_inv s c _ hI ?_)
          rw [hb, hc]
          exact ⟨[], rfl, fun x hx => absurd hx (List.not_mem_nil x)⟩
        · rw [consume_divide_finalize f s c hp hc]
          refine ih _ (finalize_state_proposed _ _) ?_
          exact cc_finalize_inv s c _ hI hb (by intro hh; cases hh)
      | Plus => exact hb.elim
      | Minus => exact hb.elim
      | Multiply => exact hb.elim
      | Equals => exact hb.elim
    | Whitespace =>
      obtain ⟨hne, hall⟩ := hb
      by_cases hc : c = ' '
      · rw [consume_space_extend f s c hp hc]
        refine goodres_ok (push_extend_inv s c _ hI hp ?_)
        refine ⟨fun hh => hne (List.append_eq_nil.1 hh).1, ?_⟩
        intro x hx
        rcases List.mem_append.1 hx with h | h
        · exact hall x h
        · rw [List.mem_singleton] at h; subst h; exact hc
      · rw [consume_space_finalize f s c hp hc]
        refine ih _ (finalize_state_proposed _ _) ?_
        exact cc_finalize_inv s c _ hI ⟨hne, hall⟩ (by intro hh; cases hh)
    | Identifier =>
      obtain ⟨hne, hall⟩ := hb
      cases halpha : is_alphabetic c with
      | true =>
        rw [consume_ident_extend f s c hp halpha]
        refine goodres_ok (push_extend_inv s c _ hI hp ?_)
        refine ⟨fun hh => hne (List.append_eq_nil.1 hh).1, ?_⟩
        intro x hx
        rcases List.mem_append.1 hx with h | h
        · exact hall x h
        · rw [List.mem_singleton] at h; subst h; exact halpha
      | false =>
        rw [consume_ident_finalize f s c hp halpha]
        refine ih _ (finalize_state_proposed _ _) ?_
        exact cc_finalize_inv s c _ hI ⟨hne, hall⟩ (by intro hh; cases hh)
    | Equals =>
      by_cases hc : c = '='
      · rw [consume_equals_double f s c hp hc]
        refine goodres_ok (emit_tok_inv s c _ hI ?_ (by intro hh; cases hh))
        rw [hb, hc]
        rfl
      · rw [consume_equals_single f s c hp hc]
        refine ih _ (finalize_state_proposed _ _) ?_
        exact cc_finalize_inv s c _ hI hb (by intro hh; cases hh)
    | LeftParen => exact hb.elim
    | RightParen => exact hb.elim
    | LeftBrace => exact hb.elim
    | RightBrace => exact hb.elim
    | Newline => exact hb.elim
    | EndOfFile => exact hb.elim

theorem consume_char_good (s : Lexer) (c : Char) (hI : LexInv s) :
    GoodRes (Lexer.consume_char s c) :=
  consume_step_good 1 s c hI (fun t h hI' => consume_idle_good 0 t c h hI')

theorem lexLoop_good : ∀ (cs : List Char) (s : Lexer), LexInv s →
    (∀ s', lexLoop s cs = ConsumeResult.ok s' → LexInv s') ∧
    (∀ m, lexLoop s cs ≠ ConsumeResult.fatal m) := by
  intro cs
  induction cs with
  | nil =>
    intro s hI
    exact ⟨fun s' h => by cases h; exact hI, fun m h => by cases h⟩
  | cons c cs ih =>
    intro s hI
    have hg := consume_char_good s c hI
    cases hcc : Lexer.consume_char s c with
    | ok s1 =>
      have h1 : lexLoop s (c :: cs) = lexLoop s1 cs := by
        simp only [lexLoop, hcc]
      rw [h1]
      exact ih s1 (hg.1 s1 hcc)
    | err e =>
      have h1 : lexLoop s (c :: cs) = ConsumeResult.err e := by
        simp only [lexLoop, hcc]
      rw [h1]
      exact ⟨fun s' hh => ConsumeResult.noConfusion hh,
        fun m hh => ConsumeResult.noConfusion hh⟩
    | fatal m => exact absurd hcc (hg.2 m)

/-! ## End-of-input resolution and top-level invariants -/

theorem lex_no_fatal (source : List Char) (m : String) :
    Lexer.lex Lexer.new source ≠ LexResult.fatal m := by
  intro h
  cases hl : lexLoop Lexer.new source with
  | fatal m' => exact (lexLoop_good source Lexer.new inv_new).2 m' hl
  | err e =>
    simp only [Lexer.lex, hl] at h
    exact LexResult.noConfusion h
  | ok s1 =>
    cases hp : s1.proposed_token_type with
    | none =>
      simp only [Lexer.lex, hl, hp, push_token] at h
      exact LexResult.noConfusion h
    | some tt =>
      cases tt <;> simp only [Lexer.lex, hl, hp] at h <;> exact LexResult.noConfusion h

/-- C1: every successful lex yields contiguously-spanned tokens starting at
line 1, column 0, terminated by exactly one `EndOfFile` token in the final
position. -/
theorem lex_tokens_contiguous (source : List Char) (tokens : List Token)
    (h : Lexer.lex Lexer.new source = LexResult.ok tokens) :
    chain_from 1 0 tokens ∧
    ∃ ts t, tokens = ts ++ [t] ∧ t.token_type = TokenType.EndOfFile ∧
      ∀ u ∈ ts, u.token_type ≠ TokenType.EndOfFile := by
  cases hl : lexLoop Lexer.new source with
  | fatal m' => exact absurd hl ((lexLoop_good source Lexer.new inv_new).2 m')
  | err e =>
    simp only [Lexer.lex, hl] at h
    exact LexResult.noConfusion h
  | ok s1 =>
    have hI := (lexLoop_good source Lexer.new inv_new).1 s1 hl
    cases hp : s1.proposed_token_type with
    | none =>
      simp only [Lexer.lex, hl, hp, push_token] at h
      injection h with h
      subst h
      constructor
      · refine chain_from_append 1 0 s1.full_tokens _ hI.chain ?_
        exact hI.start_eq
      · refine ⟨s1.full_tokens, _, rfl, rfl, hI.no_eof⟩
    | some tt =>
      cases tt <;> simp only [Lexer.lex, hl, hp] at h <;> exact LexResult.noConfusion h

/-- Witness for `lex_tokens_contiguous` on the one-character input
consisting of a single newline. -/
theorem lex_tokens_contiguous_witness :
    chain_from 1 0 [Token.mk TokenType.Newline ['\n'] 1 2 0 0,
      Token.mk TokenType.EndOfFile [] 2 2 0 0] ∧
    ∃ ts t, [Token.mk TokenType.Newline ['\n'] 1 2 0 0,
      Token.mk TokenType.EndOfFile [] 2 2 0 0] = ts ++ [t] ∧
      t.token_type = TokenType.EndOfFile ∧
      ∀ u ∈ ts, u.token_type ≠ TokenType.EndOfFile :=
  lex_tokens_contiguous ['\n']
    [Token.mk TokenType.Newline ['\n'] 1 2 0 0,
     Token.mk TokenType.EndOfFile [] 2 2 0 0] rfl

theorem lex_eof_cases (source : List Char) (s1 : Lexer)
    (h : lexLoop Lexer.new source = ConsumeResult.ok s1) :
    (∀ b, s1.proposed_token_type = some (TokenType.StringLiteral b) →
      Lexer.lex Lexer.new source =
        LexResult.err (construct_error s1 LexErrorType.UnexpectedEOFString)) ∧
    (s1.proposed_token_type = none →
      Lexer.lex Lexer.new source = LexResult.ok (s1.full_tokens ++
        [Token.mk TokenType.EndOfFile [] s1.end_line s1.end_line
          s1.end_index s1.end_index])) ∧
    (∀ tt, s1.proposed_token_type = some tt →
      (∀ b, tt ≠ TokenType.StringLiteral b) →
      Lexer.lex Lexer.new source =
        LexResult.err (construct_error s1 LexErrorType.MissingTrailingNewLine)) := by
  have hI := (lexLoop_good source Lexer.new inv_new).1 s1 h
  refine ⟨?_, ?_, ?_⟩
  · intro b hp
    simp only [Lexer.lex, h, hp]
  · intro hp
    have hbuf : s1.buf = [] := by
      have hb := hI.buf_ok; rw [hp] at hb; exact hb
    obtain ⟨hsl, hsi⟩ := hI.idle_zero hp
    simp only [Lexer.lex, h, hp, push_token]
    show LexResult.ok (s1.full_tokens ++ [mk_token _ TokenType.EndOfFile]) = _
    have : mk_token { s1 with proposed_token_type := some TokenType.EndOfFile }
        TokenType.EndOfFile =
        Token.mk TokenType.EndOfFile [] s1.end_line s1.end_line
          s1.end_index s1.end_index := by
      unfold mk_token
      rw [show ({ s1 with proposed_token_type := some TokenType.EndOfFile } : Lexer).buf
        = s1.buf from rfl, hbuf]
      rw [show ({ s1 with proposed_token_type := some TokenType.EndOfFile } : Lexer).start_line
        = s1.start_line from rfl, hsl]
      rw [show ({ s1 with proposed_token_type := some TokenType.EndOfFile } : Lexer).start_index
        = s1.start_index from rfl, hsi]
    rw [this]
  · intro tt hp hne
    cases tt with
    | StringLiteral b => exact absurd rfl (hne b)
    | BinLiteral => simp only [Lexer.lex, h, hp]
    | HexLiteral => simp only [Lexer.lex, h, hp]
    | DecimalLiteral hd => simp only [Lexer.lex, h, hp]
    | Operator op => simp only [Lexer.lex, h, hp]
    | LineComment => simp only [Lexer.lex, h, hp]
    | LeftParen => simp only [Lexer.lex, h, hp]
    | RightParen => simp only [Lexer.lex, h, hp]
    | LeftBrace => simp only [Lexer.lex, h, hp]
    | RightBrace => simp only [Lexer.lex, h, hp]
    | Equals => simp only [Lexer.lex, h, hp]
    | Identifier => simp only [Lexer.lex, h, hp]
    | Whitespace => simp only [Lexer.lex, h, hp]
    | Newline => simp only [Lexer.lex, h, hp]
    | EndOfFile => simp only [Lexer.lex, h, hp]

/-- C2: end-of-input resolution.  After the loop consumes all characters:
a tentative string literal gives `UnexpectedEOFString`; an idle state
succeeds, appending a zero-width `EndOfFile` token at the final coordinates;
any other live tentative token gives `MissingTrailingNewLine`. -/
theorem lex_eof_resolution (source : List Char) (s1 : Lexer)
    (h : lexLoop Lexer.new source = ConsumeResult.ok s1) :
    (∀ b, s1.proposed_token_type = some (TokenType.StringLiteral b) →
      Lexer.lex Lexer.new source =
        LexResult.err (construct_error s1 LexErrorType.UnexpectedEOFString)) ∧
    (s1.proposed_token_type = none →
      Lexer.lex Lexer.new source = LexResult.ok (s1.full_tokens ++
        [Token.mk TokenType.EndOfFile [] s1.end_line s1.end_line
          s1.end_index s1.end_index])) ∧
    (∀ tt, s1.proposed_token_type = some tt →
      (∀ b, tt ≠ TokenType.StringLiteral b) →
      Lexer.lex Lexer.new source =
        LexResult.err (construct_error s1 LexErrorType.MissingTrailingNewLine)) :=
  lex_eof_cases source s1 h

/-- Witness for `lex_eof_resolution`: lexing just a newline reaches an idle
state and appends the zero-width `EndOfFile` token at line 2, column 0. -/
theorem lex_eof_resolution_witness :
    Lexer.lex Lexer.new ['\n'] = LexResult.ok
      ([Token.mk TokenType.Newline ['\n'] 1 2 0 0] ++
        [Token.mk TokenType.EndOfFile [] 2 2 0 0]) :=
  (lex_eof_resolution ['\n']
    (Lexer.mk [Token.mk TokenType.Newline ['\n'] 1 2 0 0] [] (some '\n') none 2 2 0 0)
    rfl).2.1 rfl

/-- The tentative kinds that are always finalized in the same dispatch step
that proposes them (the `panic!("Unexpected partial token")` arm). -/
def is_terminal_kind : Option TokenType → Bool
  | some TokenType.LeftParen => true
  | some TokenType.RightParen => true
  | some TokenType.LeftBrace => true
  | some TokenType.RightBrace => true
  | some TokenType.Newline => true
  | some TokenType.EndOfFile => true
  | _ => false

/-- C9: `consume_char` is never entered with a terminal tentative kind —
every state reached by the character loop has a non-terminal tentative
kind — so `lex` never reaches the `Unexpected partial token` panic. -/
theorem terminal_states_unreachable :
    (∀ (source : List Char) (s1 : Lexer),
      lexLoop Lexer.new source = ConsumeResult.ok s1 →
      is_terminal_kind s1.proposed_token_type = false) ∧
    (∀ source : List Char,
      Lexer.lex Lexer.new source ≠ LexResult.fatal "Unexpected partial token") := by
  constructor
  · intro source s1 hl
    have hI := (lexLoop_good source Lexer.new inv_new).1 s1 hl
    have hb := hI.buf_ok
    cases hp : s1.proposed_token_type with
    | none => rfl
    | some tt =>
      rw [hp] at hb
      cases tt with
      | LeftParen => exact hb.elim
      | RightParen => exact hb.elim
      | LeftBrace => exact hb.elim
      | RightBrace => exact hb.elim
      | Newline => exact hb.elim
      | EndOfFile => exact hb.elim
      | BinLiteral => rfl
      | HexLiteral => rfl
      | DecimalLiteral hd => rfl
      | StringLiteral b => rfl
      | Operator op => rfl
      | LineComment => rfl
      | Equals => rfl
      | Identifier => rfl
      | Whitespace => rfl
  · intro source
    exact lex_no_fatal source "Unexpected partial token"

/-- Witness for `terminal_states_unreachable` on the input `(`+newline. -/
theorem terminal_states_unreachable_witness :
    is_terminal_kind
      ((Lexer.mk [Token.mk TokenType.LeftParen ['('] 1 1 0 1] []
        (some '(') none 1 1 1 1).proposed_token_type) = false ∧
    Lexer.lex Lexer.new [] ≠ LexResult.fatal "Unexpected partial token" :=
  ⟨terminal_states_unreachable.1 ['(']
      (Lexer.mk [Token.mk TokenType.LeftParen ['('] 1 1 0 1] [] (some '(') none 1 1 1 1)
      rfl,
   terminal_states_unreachable.2 []⟩

/-- C10: whenever the loop leaves the lexer assembling a numeric literal,
the partial buffer is non-empty and begins with a digit, so the
`last().unwrap()` inspections cannot fail; `lex` never reaches that panic. -/
theorem numeric_buffer_nonempty :
    (∀ (source : List Char) (s1 : Lexer),
      lexLoop Lexer.new source = ConsumeResult.ok s1 →
      (s1.proposed_token_type = some TokenType.BinLiteral ∨
       s1.proposed_token_type = some TokenType.HexLiteral ∨
       (∃ hd, s1.proposed_token_type = some (TokenType.DecimalLiteral hd))) →
      ∃ d ds, s1.buf = d :: ds ∧ '0' ≤ d ∧ d ≤ '9') ∧
    (∀ source : List Char,
      Lexer.lex Lexer.new source ≠
        LexResult.fatal "last called on empty token buffer") := by
  constructor
  · intro source s1 hl hnum
    have hI := (lexLoop_good source Lexer.new inv_new).1 s1 hl
    have hb := hI.buf_ok
    rcases hnum with hp | hp | ⟨hd, hp⟩
    · rw [hp] at hb
      obtain ⟨ds, hds, _⟩ := hb
      exact ⟨'0', 'b' :: ds, hds, by decide, by decide⟩
    · rw [hp] at hb
      obtain ⟨ds, hds, _⟩ := hb
      exact ⟨'0', 'x' :: ds, hds, by decide, by decide⟩
    · rw [hp] at hb
      cases hd with
      | false =>
        obtain ⟨hne, hall⟩ := hb
        cases hbuf : s1.buf with
        | nil => exact absurd hbuf hne
        | cons d ds =>
          have hd0 := hall d (by rw [hbuf]; exact List.mem_cons_self d ds)
          obtain ⟨hl1, hl2⟩ := le_of_mem_dec_chars hd0
          exact ⟨d, ds, rfl, hl1, hl2⟩
      | true =>
        obtain ⟨a, b, heq, hane, halla, hallb⟩ := hb
        cases ha : a with
        | nil => exact absurd ha hane
        | cons d a' =>
          rw [ha] at heq
          have hd0 := halla d (by rw [ha]; exact List.mem_cons_self d a')
          obtain ⟨hl1, hl2⟩ := le_of_mem_dec_chars hd0
          exact ⟨d, a' ++ '.' :: b, by rw [heq]; rfl, hl1, hl2⟩
  · intro source
    exact lex_no_fatal source "last called on empty token buffer"

/-- Witness for `numeric_buffer_nonempty` after lexing `0b1`. -/
theorem numeric_buffer_nonempty_witness :
    (∃ d ds, (Lexer.mk [] ['0', 'b', '1'] (some '1') (some TokenType.BinLiteral)
        1 1 0 3).buf = d :: ds ∧ '0' ≤ d ∧ d ≤ '9') ∧
    Lexer.lex Lexer.new [] ≠ LexResult.fatal "last called on empty token buffer" :=
  ⟨numeric_buffer_nonempty.1 ['0', 'b', '1']
      (Lexer.mk [] ['0', 'b', '1'] (some '1') (some TokenType.BinLiteral) 1 1 0 3)
      rfl (Or.inl rfl),
   numeric_buffer_nonempty.2 []⟩

/-! ## Literal termination, empty literals, hex case, quotes -/

/-- C6: while assembling a binary (resp. hexadecimal) literal, a terminator
character seen while the buffer still ends in the leading `b` (resp. `x`)
gives `EmptyBinLiteral` (resp. `EmptyHexLiteral`); with a digit consumed the
literal is finalized and the terminator re-dispatched.  Concretely, `0b`
and `0x` followed by a newline fail with the empty-literal errors. -/
theorem empty_literal_errors :
    (∀ (s : Lexer) (c : Char),
      s.proposed_token_type = some TokenType.BinLiteral →
      c ∉ bin_chars → is_literal_terminator c = true →
      s.buf.getLast? = some 'b' →
      Lexer.consume_char s c = ConsumeResult.err
        (construct_error_w_char (set_cc s c) LexErrorType.EmptyBinLiteral)) ∧
    (∀ (s : Lexer) (c l : Char),
      s.proposed_token_type = some TokenType.BinLiteral →
      c ∉ bin_chars → is_literal_terminator c = true →
      s.buf.getLast? = some l → l ≠ 'b' →
      Lexer.consume_char s c =
        consume_char_aux 1 (finalize_state (set_cc s c) TokenType.BinLiteral) c) ∧
    (∀ (s : Lexer) (c : Char),
      s.proposed_token_type = some TokenType.HexLiteral →
      c ∉ hex_chars → c ∉ upper_hex_chars → is_literal_terminator c = true →
      s.buf.getLast? = some 'x' →
      Lexer.consume_char s c = ConsumeResult.err
        (construct_error (set_cc s c) LexErrorType.EmptyHexLiteral)) ∧
    (∀ (s : Lexer) (c l : Char),
      s.proposed_token_type = some TokenType.HexLiteral →
      c ∉ hex_chars → c ∉ upper_hex_chars → is_literal_terminator c = true →
      s.buf.getLast? = some l → l ≠ 'x' →
      Lexer.consume_char s c =
        consume_char_aux 1 (finalize_state (set_cc s c) TokenType.HexLiteral) c) ∧
    lexErrType (lexString "0b\n") = some LexErrorType.EmptyBinLiteral ∧
    lexErrType (lexString "0x\n") = some LexErrorType.EmptyHexLiteral := by
  refine ⟨?_, ?_, ?_, ?_, rfl, rfl⟩
  · intro s c hp h1 h2 hl
    exact consume_bin_empty 1 s c hp h1 h2 hl
  · intro s c l hp h1 h2 hl hlb
    exact consume_bin_term 1 s c l hp h1 h2 hl hlb
  · intro s c hp h1 h2 h3 hl
    exact consume_hex_empty 1 s c hp h1 h2 h3 hl
  · intro s c l hp h1 h2 h3 hl hlx
    exact consume_hex_term 1 s c l hp h1 h2 h3 hl hlx

/-- Witness for `empty_literal_errors` at the states reached after `0b`
and after `0b1`. -/
theorem empty_literal_errors_witness :
    Lexer.consume_char
        (Lexer.mk [] ['0', 'b'] (some 'b') (some TokenType.BinLiteral) 1 1 0 2) '\n' =
      ConsumeResult.err (construct_error_w_char
        (set_cc (Lexer.mk [] ['0', 'b'] (some 'b') (some TokenType.BinLiteral) 1 1 0 2) '\n')
        LexErrorType.EmptyBinLiteral) ∧
    Lexer.consume_char
        (Lexer.mk [] ['0', 'b', '1'] (some '1') (some TokenType.BinLiteral) 1 1 0 3) '\n' =
      consume_char_aux 1 (finalize_state
        (set_cc (Lexer.mk [] ['0', 'b', '1'] (some '1') (some TokenType.BinLiteral) 1 1 0 3)
          '\n') TokenType.BinLiteral) '\n' :=
  ⟨empty_literal_errors.1
      (Lexer.mk [] ['0', 'b'] (some 'b') (some TokenType.BinLiteral) 1 1 0 2) '\n'
      rfl (by decide) (by decide) rfl,
   empty_literal_errors.2.1
      (Lexer.mk [] ['0', 'b', '1'] (some '1') (some TokenType.BinLiteral) 1 1 0 3) '\n' '1'
      rfl (by decide) (by decide) rfl (by decide)⟩

/-- C7: in a hexadecimal literal, lowercase hex digits extend and uppercase
`A`-`F` raise `WrongHexCase`; `0x4D` fails with `WrongHexCase` while
`0xdeadbeef` lexes to a single hex token, a newline and the end of file. -/
theorem hex_case_rules :
    (∀ (s : Lexer) (c : Char),
      s.proposed_token_type = some TokenType.HexLiteral → c ∈ hex_chars →
      Lexer.consume_char s c = ConsumeResult.ok (push_char (set_cc s c) c)) ∧
    (∀ (s : Lexer) (c : Char),
      s.proposed_token_type = some TokenType.HexLiteral →
      c ∉ hex_chars → c ∈ upper_hex_chars →
      Lexer.consume_char s c = ConsumeResult.err
        (construct_error_w_char (set_cc s c) LexErrorType.WrongHexCase)) ∧
    lexErrType (lexString "0x4D\n") = some LexErrorType.WrongHexCase ∧
    lexString "0xdeadbeef\n" = LexResult.ok
      [Token.mk TokenType.HexLiteral "0xdeadbeef".toList 1 1 0 10,
       Token.mk TokenType.Newline ['\n'] 1 2 10 0,
       Token.mk TokenType.EndOfFile [] 2 2 0 0] := by
  refine ⟨?_, ?_, rfl, rfl⟩
  · intro s c hp hc
    exact consume_hex_digit 1 s c hp hc
  · intro s c hp h1 h2
    exact consume_hex_upper 1 s c hp h1 h2

/-- Witness for `hex_case_rules` at the state reached after `0x4`. -/
theorem hex_case_rules_witness :
    Lexer.consume_char
        (Lexer.mk [] ['0', 'x', '4'] (some '4') (some TokenType.HexLiteral) 1 1 0 3) 'd' =
      ConsumeResult.ok (push_char
        (set_cc (Lexer.mk [] ['0', 'x', '4'] (some '4') (some TokenType.HexLiteral) 1 1 0 3)
          'd') 'd') ∧
    Lexer.consume_char
        (Lexer.mk [] ['0', 'x', '4'] (some '4') (some TokenType.HexLiteral) 1 1 0 3) 'D' =
      ConsumeResult.err (construct_error_w_char
        (set_cc (Lexer.mk [] ['0', 'x', '4'] (some '4') (some TokenType.HexLiteral) 1 1 0 3)
          'D') LexErrorType.WrongHexCase) :=
  ⟨hex_case_rules.1
      (Lexer.mk [] ['0', 'x', '4'] (some '4') (some TokenType.HexLiteral) 1 1 0 3) 'd'
      rfl (by decide),
   hex_case_rules.2.1
      (Lexer.mk [] ['0', 'x', '4'] (some '4') (some TokenType.HexLiteral) 1 1 0 3) 'D'
      rfl (by decide) (by decide)⟩

/-- C8: a single quote in the idle state raises `WrongQuotes`, while inside
a double-quoted string literal it simply extends the lexeme; concretely a
single-quoted string fails with `WrongQuotes` and a double-quoted string
containing an apostrophe lexes with no error. -/
theorem quote_rules :
    (∀ (s : Lexer) (c : Char),
      s.proposed_token_type = none → c = squoteChar →
      Lexer.consume_char s c = ConsumeResult.err
        (construct_error_w_char (set_cc s c) LexErrorType.WrongQuotes)) ∧
    (∀ (s : Lexer) (c : Char),
      s.proposed_token_type = some (TokenType.StringLiteral false) → c = squoteChar →
      Lexer.consume_char s c = ConsumeResult.ok (push_char (set_cc s c) c)) ∧
    lexErrType (lexList (squoteChar :: "Hello world".toList ++ [squoteChar])) =
      some LexErrorType.WrongQuotes ∧
    lexList [quoteChar, 'd', 'o', 'n', squoteChar, 't', quoteChar] = LexResult.ok
      [Token.mk (TokenType.StringLiteral false)
        [quoteChar, 'd', 'o', 'n', squoteChar, 't', quoteChar] 1 1 0 7,
       Token.mk TokenType.EndOfFile [] 1 1 7 7] := by
  refine ⟨?_, ?_, rfl, rfl⟩
  · intro s c hp hc
    exact consume_idle_squote 1 s c hp hc
  · intro s c hp hc
    refine consume_string_extend 1 s c false hp ?_
    rw [hc]
    decide

/-- Witness for `quote_rules`: the idle state rejects a single quote and a
string body accepts one. -/
theorem quote_rules_witness :
    Lexer.consume_char Lexer.new squoteChar =
      ConsumeResult.err (construct_error_w_char (set_cc Lexer.new squoteChar)
        LexErrorType.WrongQuotes) ∧
    Lexer.consume_char
        (Lexer.mk [] [quoteChar, 'a'] (some 'a') (some (TokenType.StringLiteral false))
          1 1 0 2) squoteChar =
      ConsumeResult.ok (push_char
        (set_cc (Lexer.mk [] [quoteChar, 'a'] (some 'a')
          (some (TokenType.StringLiteral false)) 1 1 0 2) squoteChar) squoteChar) :=
  ⟨quote_rules.1 Lexer.new squoteChar rfl rfl,
   quote_rules.2.1
      (Lexer.mk [] [quoteChar, 'a'] (some 'a') (some (TokenType.StringLiteral false)) 1 1 0 2)
      squoteChar rfl rfl⟩

/-- C3 counterexample: `0` is outside the identifier alphabet and outside
the fixed terminator set, yet while assembling the identifier `a` the lexer
finalizes the identifier and re-dispatches `0` (starting a decimal literal)
instead of raising a malformed-literal error; the whole input `a0`+newline
lexes without any error. -/
theorem identifier_nonterminator_counterexample :
    is_literal_terminator '0' = false ∧
    is_alphabetic '0' = false ∧
    Lexer.consume_char
        (Lexer.mk [] ['a'] (some 'a') (some TokenType.Identifier) 1 1 0 1) '0' =
      ConsumeResult.ok (Lexer.mk [Token.mk TokenType.Identifier ['a'] 1 1 0 1]
        ['0'] (some '0') (some (TokenType.DecimalLiteral false)) 1 1 1 2) ∧
    lexString "a0\n" = LexResult.ok
      [Token.mk TokenType.Identifier ['a'] 1 1 0 1,
       Token.mk (TokenType.DecimalLiteral false) ['0'] 1 1 1 2,
       Token.mk TokenType.Newline ['\n'] 1 2 2 0,
       Token.mk TokenType.EndOfFile [] 2 2 0 0] :=
  ⟨rfl, rfl, rfl, rfl⟩

/-- C3 (amended): for the numeric literals, a character outside the
literal's alphabet that is in the terminator set ends the literal (finalize
then re-dispatch, subject to the empty-literal and trailing-dot checks), and
one that is not in the terminator set raises the malformed error of that
literal kind.  For identifiers there is no malformed error: any
non-alphabetic character — in the terminator set or not — ends the
identifier (finalize then re-dispatch). -/
theorem literal_terminator_amended :
    (∀ (s : Lexer) (c : Char),
      s.proposed_token_type = some TokenType.BinLiteral →
      c ∉ bin_chars → is_literal_terminator c = false →
      Lexer.consume_char s c = ConsumeResult.err
        (construct_error_w_char (set_cc s c) LexErrorType.MalformedBinLiteral)) ∧
    (∀ (s : Lexer) (c : Char),
      s.proposed_token_type = some TokenType.HexLiteral →
      c ∉ hex_chars → c ∉ upper_hex_chars → is_literal_terminator c = false →
      Lexer.consume_char s c = ConsumeResult.err
        (construct_error_w_char (set_cc s c) LexErrorType.MalformedHexLiteral)) ∧
    (∀ (s : Lexer) (c : Char) (hd : Bool),
      s.proposed_token_type = some (TokenType.DecimalLiteral hd) →
      ¬(s.buf = ['0'] ∧ c = 'b') → ¬(s.buf = ['0'] ∧ c = 'x') →
      c ∉ dec_chars → c ≠ '.' → is_literal_terminator c = false →
      Lexer.consume_char s c = ConsumeResult.err
        (construct_error_w_char (set_cc s c) LexErrorType.MalformedDecLiteral)) ∧
    (∀ (s : Lexer) (c : Char) (hd : Bool) (l : Char),
      s.proposed_token_type = some (TokenType.DecimalLiteral hd) →
      ¬(s.buf = ['0'] ∧ c = 'b') → ¬(s.buf = ['0'] ∧ c = 'x') →
      c ∉ dec_chars → c ≠ '.' → is_literal_terminator c = true →
      s.buf.getLast? = some l → l ≠ '.' →
      Lexer.consume_char s c = consume_char_aux 1
        (finalize_state (set_cc s c) (TokenType.DecimalLiteral hd)) c) ∧
    (∀ (s : Lexer) (c : Char),
      s.proposed_token_type = some TokenType.Identifier →
      is_alphabetic c = false →
      Lexer.consume_char s c = consume_char_aux 1
        (finalize_state (set_cc s c) TokenType.Identifier) c) := by
  refine ⟨?_, ?_, ?_, ?_, ?_⟩
  · intro s c hp h1 h2
    exact consume_bin_mal 1 s c hp h1 h2
  · intro s c hp h1 h2 h3
    exact consume_hex_mal 1 s c hp h1 h2 h3
  · intro s c hd hp h1 h2 h3 h4 h5
    exact consume_dec_mal 1 s c hd hp h1 h2 h3 h4 h5
  · intro s c hd l hp h1 h2 h3 h4 h5 hl hld
    exact consume_dec_term 1 s c hd l hp h1 h2 h3 h4 h5 hl hld
  · intro s c hp hc
    exact consume_ident_finalize 1 s c hp hc

/-- Witness for `literal_terminator_amended`: a malformed binary literal at
`0b1` followed by `z`, and the identifier `a` ended by the non-terminator
digit `0`. -/
theorem literal_terminator_amended_witness :
    Lexer.consume_char
        (Lexer.mk [] ['0', 'b', '1'] (some '1') (some TokenType.BinLiteral) 1 1 0 3) 'z' =
      ConsumeResult.err (construct_error_w_char
        (set_cc (Lexer.mk [] ['0', 'b', '1'] (some '1') (some TokenType.BinLiteral) 1 1 0 3)
          'z') LexErrorType.MalformedBinLiteral) ∧
    Lexer.consume_char
        (Lexer.mk [] ['a'] (some 'a') (some TokenType.Identifier) 1 1 0 1) '0' =
      consume_char_aux 1 (finalize_state
        (set_cc (Lexer.mk [] ['a'] (some 'a') (some TokenType.Identifier) 1 1 0 1) '0')
        TokenType.Identifier) '0' :=
  ⟨literal_terminator_amended.1
      (Lexer.mk [] ['0', 'b', '1'] (some '1') (some TokenType.BinLiteral) 1 1 0 3) 'z'
      rfl (by decide) (by decide),
   literal_terminator_amended.2.2.2.2
      (Lexer.mk [] ['a'] (some 'a') (some TokenType.Identifier) 1 1 0 1) '0'
      rfl (by decide)⟩

/-! ## Round-trip: re-lexing a token's lexeme in isolation -/

/-- The lexeme re-lexed in isolation: a trailing newline is appended
exactly when the lexeme alone does not already lex successfully. -/
def relexInput (v : List Char) : List Char :=
  match Lexer.lex Lexer.new v with
  | LexResult.ok _ => v
  | _ => v ++ ['\n']

theorem lexLoop_append_ok {s t : Lexer} {xs : List Char}
    (h : lexLoop s xs = ConsumeResult.ok t) (ys : List Char) :
    lexLoop s (xs ++ ys) = lexLoop t ys := by
  induction xs generalizing s with
  | nil => cases h; rfl
  | cons c cs ih =>
    rw [List.cons_append]
    cases hcc : Lexer.consume_char s c with
    | ok s1 =>
      have h1 : lexLoop s (c :: cs) = lexLoop s1 cs := by simp only [lexLoop, hcc]
      rw [h1] at h
      have h2 : lexLoop s (c :: (cs ++ ys)) = lexLoop s1 (cs ++ ys) := by
        simp only [lexLoop, hcc]
      rw [h2]
      exact ih h
    | err e =>
      have h1 : lexLoop s (c :: cs) = ConsumeResult.err e := by simp only [lexLoop, hcc]
      rw [h1] at h
      exact ConsumeResult.noConfusion h
    | fatal m =>
      have h1 : lexLoop s (c :: cs) = ConsumeResult.fatal m := by simp only [lexLoop, hcc]
      rw [h1] at h
      exact ConsumeResult.noConfusion h

/-- The state after extending the current token with every character of
`cs` (each step records the character and pushes it). -/
def extend_run (s : Lexer) (cs : List Char) : Lexer :=
  cs.foldl (fun t c => push_char (set_cc t c) c) s

@[simp] theorem extend_run_nil (s : Lexer) : extend_run s [] = s := rfl

theorem extend_run_cons (s : Lexer) (c : Char) (cs : List Char) :
    extend_run s (c :: cs) = extend_run (push_char (set_cc s c) c) cs := rfl

theorem extend_run_proposed (cs : List Char) : ∀ s : Lexer,
    (extend_run s cs).proposed_token_type = s.proposed_token_type := by
  induction cs with
  | nil => intro s; rfl
  | cons c cs ih =>
    intro s
    rw [extend_run_cons, ih, push_char_proposed, set_cc_proposed]

theorem extend_run_buf (cs : List Char) : ∀ s : Lexer,
    (extend_run s cs).buf = s.buf ++ cs := by
  induction cs with
  | nil => intro s; rw [extend_run_nil, List.append_nil]
  | cons c cs ih =>
    intro s
    rw [extend_run_cons, ih, push_char_buf, set_cc_buf, List.append_assoc]
    rfl

theorem extend_run_full_tokens (cs : List Char) : ∀ s : Lexer,
    (extend_run s cs).full_tokens = s.full_tokens := by
  induction cs with
  | nil => intro s; rfl
  | cons c cs ih =>
    intro s
    rw [extend_run_cons, ih, push_char_full_tokens, set_cc_full_tokens]

/-- Generic extension run: while every character satisfies the branch's
stay-in-token predicate, the loop just pushes characters. -/
theorem lexLoop_extends (K : TokenType) (P : Char → Prop)
    (hstep : ∀ (s : Lexer) (c : Char), s.proposed_token_type = some K → P c →
      Lexer.consume_char s c = ConsumeResult.ok (push_char (set_cc s c) c)) :
    ∀ (cs : List Char) (s : Lexer), s.proposed_token_type = some K →
      (∀ c ∈ cs, P c) → lexLoop s cs = ConsumeResult.ok (extend_run s cs) := by
  intro cs
  induction cs with
  | nil => intro s _ _; rfl
  | cons c cs ih =>
    intro s hp hall
    have hcc := hstep s c hp (hall c (List.mem_cons_self c cs))
    have h1 : lexLoop s (c :: cs) = lexLoop (push_char (set_cc s c) c) cs := by
      simp only [lexLoop, hcc]
    rw [h1, extend_run_cons]
    have hp2 : (push_char (set_cc s c) c).proposed_token_type = some K := by
      rw [push_char_proposed, set_cc_proposed, hp]
    exact ih (push_char (set_cc s c) c) hp2 (fun x hx => hall x (List.mem_cons_of_mem c hx))

/-- Finalizing the live token at a newline, then re-dispatching the newline
in the idle state, emits the token followed by a `Newline` token. -/
theorem lex_tail_newline (s2 : Lexer) (K : TokenType)
    (hfin : Lexer.consume_char s2 '\n' =
      consume_char_aux 1 (finalize_state (set_cc s2 '\n') K) '\n') :
    lexLoop s2 ['\n'] = ConsumeResult.ok
      (emit_tok (finalize_state (set_cc s2 '\n') K) '\n' TokenType.Newline) := by
  have hidle := consume_idle_newline 0 (finalize_state (set_cc s2 '\n') K) '\n'
    (finalize_state_proposed _ _) rfl
  have hcc : Lexer.consume_char s2 '\n' = ConsumeResult.ok
      (emit_tok (finalize_state (set_cc s2 '\n') K) '\n' TokenType.Newline) := by
    rw [hfin]
    exact hidle
  simp only [lexLoop, hcc]

/-- Common round-trip argument for every token kind that is assembled in
the buffer and finalized by a terminator: the lexeme alone ends in a live
token (so `MissingTrailingNewLine`), and with a newline appended the first
token of the re-lex has the same kind and lexeme. -/
theorem lex_relex_buffer_kind (v : List Char) (K : TokenType) (s2 : Lexer)
    (hloopv : lexLoop Lexer.new v = ConsumeResult.ok s2)
    (hp2 : s2.proposed_token_type = some K)
    (hKstr : ∀ b, K ≠ TokenType.StringLiteral b)
    (hbuf2 : s2.buf = v)
    (htval : s2.full_tokens = [])
    (hfin : Lexer.consume_char s2 '\n' =
      consume_char_aux 1 (finalize_state (set_cc s2 '\n') K) '\n') :
    ∃ ts, Lexer.lex Lexer.new (relexInput v) = LexResult.ok ts ∧
      ∃ u rest, ts = u :: rest ∧ u.token_type = K ∧ u.value = v := by
  have herr : Lexer.lex Lexer.new v =
      LexResult.err (construct_error s2 LexErrorType.MissingTrailingNewLine) :=
    (lex_eof_cases v s2 hloopv).2.2 K hp2 hKstr
  have hrelex : relexInput v = v ++ ['\n'] := by
    unfold relexInput
    rw [herr]
  have htail := lex_tail_newline s2 K hfin
  have hloop2 : lexLoop Lexer.new (v ++ ['\n']) = ConsumeResult.ok
      (emit_tok (finalize_state (set_cc s2 '\n') K) '\n' TokenType.Newline) := by
    rw [lexLoop_append_ok hloopv ['\n']]
    exact htail
  have hok := (lex_eof_cases (v ++ ['\n']) _ hloop2).2.1 (emit_tok_proposed _ _ _)
  rw [hrelex]
  refine ⟨_, hok, mk_token (set_cc s2 '\n') K, ?_, ?_, ?_, ?_⟩
  · show List Token
    exact (mk_token (start_tok (finalize_state (set_cc s2 '\n') K) '\n' TokenType.Newline)
        TokenType.Newline) ::
      [Token.mk TokenType.EndOfFile []
        (emit_tok (finalize_state (set_cc s2 '\n') K) '\n' TokenType.Newline).end_line
        (emit_tok (finalize_state (set_cc s2 '\n') K) '\n' TokenType.Newline).end_line
        (emit_tok (finalize_state (set_cc s2 '\n') K) '\n' TokenType.Newline).end_index
        (emit_tok (finalize_state (set_cc s2 '\n') K) '\n' TokenType.Newline).end_index]
  · show (emit_tok (finalize_state (set_cc s2 '\n') K) '\n' TokenType.Newline).full_tokens
        ++ [Token.mk TokenType.EndOfFile [] _ _ _ _] = _
    rw [show (emit_tok (finalize_state (set_cc s2 '\n') K) '\n'
        TokenType.Newline).full_tokens =
      (finalize_state (set_cc s2 '\n') K).full_tokens ++
        [mk_token (start_tok (finalize_state (set_cc s2 '\n') K) '\n' TokenType.Newline)
          TokenType.Newline] from rfl]
    rw [finalize_state_full_tokens, set_cc_full_tokens, htval]
    rfl
  · rw [mk_token_token_type]
  · rw [mk_token_value, set_cc_buf, hbuf2]

theorem dec_ne_b {l : Char} (h : l ∈ dec_chars) : l ≠ 'b' := by
  fin_cases h <;> decide

theorem dec_ne_x {l : Char} (h : l ∈ dec_chars) : l ≠ 'x' := by
  fin_cases h <;> decide

theorem lexLoop_step {s s1 : Lexer} {c : Char} (cs : List Char)
    (h : Lexer.consume_char s c = ConsumeResult.ok s1) :
    lexLoop s (c :: cs) = lexLoop s1 cs := by
  simp only [lexLoop, h]

/-- Round trip for a single well-shaped lexeme: re-lexing it in isolation
(with a trailing newline appended when needed) reproduces a first token of
the same kind and value. -/
theorem relex_token (tt : TokenType) (v : List Char) (hs : token_shape tt v) :
    ∃ ts, Lexer.lex Lexer.new (relexInput v) = LexResult.ok ts ∧
      ∃ u rest, ts = u :: rest ∧ u.token_type = tt ∧ u.value = v := by
  cases tt with
  | Operator op =>
    cases op with
    | Plus =>
      subst hs
      exact ⟨[Token.mk (TokenType.Operator Operator.Plus) ['+'] 1 1 0 1,
        Token.mk TokenType.EndOfFile [] 1 1 1 1], rfl,
        Token.mk (TokenType.Operator Operator.Plus) ['+'] 1 1 0 1,
        [Token.mk TokenType.EndOfFile [] 1 1 1 1], rfl, rfl, rfl⟩
    | Minus =>
      subst hs
      exact ⟨[Token.mk (TokenType.Operator Operator.Minus) ['-'] 1 1 0 1,
        Token.mk TokenType.EndOfFile [] 1 1 1 1], rfl,
        Token.mk (TokenType.Operator Operator.Minus) ['-'] 1 1 0 1,
        [Token.mk TokenType.EndOfFile [] 1 1 1 1], rfl, rfl, rfl⟩
    | Multiply =>
      subst hs
      exact ⟨[Token.mk (TokenType.Operator Operator.Multiply) ['*'] 1 1 0 1,
        Token.mk TokenType.EndOfFile [] 1 1 1 1], rfl,
        Token.mk (TokenType.Operator Operator.Multiply) ['*'] 1 1 0 1,
        [Token.mk TokenType.EndOfFile [] 1 1 1 1], rfl, rfl, rfl⟩
    | Equals =>
      subst hs
      exact ⟨[Token.mk (TokenType.Operator Operator.Equals) ['=', '='] 1 1 0 2,
        Token.mk TokenType.EndOfFile [] 1 1 2 2], rfl,
        Token.mk (TokenType.Operator Operator.Equals) ['=', '='] 1 1 0 2,
        [Token.mk TokenType.EndOfFile [] 1 1 2 2], rfl, rfl, rfl⟩
    | Divide =>
      subst hs
      exact ⟨[Token.mk (TokenType.Operator Operator.Divide) ['/'] 1 1 0 1,
        Token.mk TokenType.Newline ['\n'] 1 2 1 0,
        Token.mk TokenType.EndOfFile [] 2 2 0 0], rfl,
        Token.mk (TokenType.Operator Operator.Divide) ['/'] 1 1 0 1,
        [Token.mk TokenType.Newline ['\n'] 1 2 1 0,
         Token.mk TokenType.EndOfFile [] 2 2 0 0], rfl, rfl, rfl⟩
  | LeftParen =>
    subst hs
    exact ⟨[Token.mk TokenType.LeftParen ['('] 1 1 0 1,
      Token.mk TokenType.EndOfFile [] 1 1 1 1], rfl,
      Token.mk TokenType.LeftParen ['('] 1 1 0 1,
      [Token.mk TokenType.EndOfFile [] 1 1 1 1], rfl, rfl, rfl⟩
  | RightParen =>
    subst hs
    exact ⟨[Token.mk TokenType.RightParen [')'] 1 1 0 1,
      Token.mk TokenType.EndOfFile [] 1 1 1 1], rfl,
      Token.mk TokenType.RightParen [')'] 1 1 0 1,
      [Token.mk TokenType.EndOfFile [] 1 1 1 1], rfl, rfl, rfl⟩
  | LeftBrace =>
    subst hs
    exact ⟨[Token.mk TokenType.LeftBrace [lbraceChar] 1 1 0 1,
      Token.mk TokenType.EndOfFile [] 1 1 1 1], rfl,
      Token.mk TokenType.LeftBrace [lbraceChar] 1 1 0 1,
      [Token.mk TokenType.EndOfFile [] 1 1 1 1], rfl, rfl, rfl⟩
  | RightBrace =>
    subst hs
    exact ⟨[Token.mk TokenType.RightBrace [rbraceChar] 1 1 0 1,
      Token.mk TokenType.EndOfFile [] 1 1 1 1], rfl,
      Token.mk TokenType.RightBrace [rbraceChar] 1 1 0 1,
      [Token.mk TokenType.EndOfFile [] 1 1 1 1], rfl, rfl, rfl⟩
  | Newline =>
    subst hs
    exact ⟨[Token.mk TokenType.Newline ['\n'] 1 2 0 0,
      Token.mk TokenType.EndOfFile [] 2 2 0 0], rfl,
      Token.mk TokenType.Newline ['\n'] 1 2 0 0,
      [Token.mk TokenType.EndOfFile [] 2 2 0 0], rfl, rfl, rfl⟩
  | EndOfFile =>
    subst hs
    exact ⟨[Token.mk TokenType.EndOfFile [] 1 1 0 0], rfl,
      Token.mk TokenType.EndOfFile [] 1 1 0 0, [], rfl, rfl, rfl⟩
  | Equals =>
    subst hs
    exact ⟨[Token.mk TokenType.Equals ['='] 1 1 0 1,
      Token.mk TokenType.Newline ['\n'] 1 2 1 0,
      Token.mk TokenType.EndOfFile [] 2 2 0 0], rfl,
      Token.mk TokenType.Equals ['='] 1 1 0 1,
      [Token.mk TokenType.Newline ['\n'] 1 2 1 0,
       Token.mk TokenType.EndOfFile [] 2 2 0 0], rfl, rfl, rfl⟩
  | Identifier =>
    obtain ⟨hne, hall⟩ := hs
    cases hv : v with
    | nil => exact absurd hv hne
    | cons c cs =>
      subst hv
      have hc : is_alphabetic c = true := hall c (List.mem_cons_self c cs)
      have hcc1 := consume_idle_letter 1 Lexer.new c rfl (of_decide_eq_true hc)
      have hloop1 := lexLoop_extends TokenType.Identifier
        (fun x => is_alphabetic x = true)
        (fun s x hp hx => consume_ident_extend 1 s x hp hx)
        cs (start_tok Lexer.new c TokenType.Identifier)
        (start_tok_proposed _ _ _)
        (fun x hx => hall x (List.mem_cons_of_mem c hx))
      have hloopv : lexLoop Lexer.new (c :: cs) = ConsumeResult.ok
          (extend_run (start_tok Lexer.new c TokenType.Identifier) cs) := by
        rw [lexLoop_step cs hcc1]
        exact hloop1
      have hp2 : Lexer.proposed_token_type
          (extend_run (start_tok Lexer.new c TokenType.Identifier) cs) =
          some TokenType.Identifier := by
        rw [extend_run_proposed, start_tok_proposed]
      refine lex_relex_buffer_kind (c :: cs) TokenType.Identifier _ hloopv hp2
        (fun b h => TokenType.noConfusion h) ?_ ?_ ?_
      · rw [extend_run_buf, start_tok_buf]
        rfl
      · rw [extend_run_full_tokens, start_tok_full_tokens]
        rfl
      · exact consume_ident_finalize 1 _ '\n' hp2 (by decide)
  | Whitespace =>
    obtain ⟨hne, hall⟩ := hs
    cases hv : v with
    | nil => exact absurd hv hne
    | cons c cs =>
      subst hv
      have hc : c = ' ' := hall c (List.mem_cons_self c cs)
      have hcc1 := consume_idle_space 1 Lexer.new c rfl hc
      have hloop1 := lexLoop_extends TokenType.Whitespace (fun x => x = ' ')
        (fun s x hp hx => consume_space_extend 1 s x hp hx)
        cs (start_tok Lexer.new c TokenType.Whitespace)
        (start_tok_proposed _ _ _)
        (fun x hx => hall x (List.mem_cons_of_mem c hx))
      have hloopv : lexLoop Lexer.new (c :: cs) = ConsumeResult.ok
          (extend_run (start_tok Lexer.new c TokenType.Whitespace) cs) := by
        rw [lexLoop_step cs hcc1]
        exact hloop1
      have hp2 : Lexer.proposed_token_type
          (extend_run (start_tok Lexer.new c TokenType.Whitespace) cs) =
          some TokenType.Whitespace := by
        rw [extend_run_proposed, start_tok_proposed]
      refine lex_relex_buffer_kind (c :: cs) TokenType.Whitespace _ hloopv hp2
        (fun b h => TokenType.noConfusion h) ?_ ?_ ?_
      · rw [extend_run_buf, start_tok_buf]
        rfl
      · rw [extend_run_full_tokens, start_tok_full_tokens]
        rfl
      · exact consume_space_finalize 1 _ '\n' hp2 (by decide)
  | LineComment =>
    obtain ⟨m, hv, hbody⟩ := hs
    subst hv
    have hcc1 := consume_idle_slash 1 Lexer.new '/' rfl rfl
    have hcc2 := consume_divide_comment 1 (start_tok Lexer.new '/'
      (TokenType.Operator Operator.Divide)) '/' (start_tok_proposed _ _ _) rfl
    have hloop1 := lexLoop_extends TokenType.LineComment (fun x => x ≠ '\n')
      (fun s x hp hx => consume_comment_extend 1 s x hp hx)
      m (start_tok (start_tok Lexer.new '/' (TokenType.Operator Operator.Divide)) '/'
        TokenType.LineComment)
      (start_tok_proposed _ _ _) hbody
    have hloopv : lexLoop Lexer.new ('/' :: '/' :: m) = ConsumeResult.ok
        (extend_run (start_tok (start_tok Lexer.new '/'
          (TokenType.Operator Operator.Divide)) '/' TokenType.LineComment) m) := by
      rw [lexLoop_step ('/' :: m) hcc1, lexLoop_step m hcc2]
      exact hloop1
    have hp2 : Lexer.proposed_token_type
        (extend_run (start_tok (start_tok Lexer.new '/'
          (TokenType.Operator Operator.Divide)) '/' TokenType.LineComment) m) =
        some TokenType.LineComment := by
      rw [extend_run_proposed, start_tok_proposed]
    refine lex_relex_buffer_kind ('/' :: '/' :: m) TokenType.LineComment _ hloopv hp2
      (fun b h => TokenType.noConfusion h) ?_ ?_ ?_
    · rw [extend_run_buf, start_tok_buf, start_tok_buf]
      rfl
    · rw [extend_run_full_tokens, start_tok_full_tokens, start_tok_full_tokens]
      rfl
    · exact consume_comment_newline 1 _ '\n' hp2 rfl
  | StringLiteral esc =>
    cases esc with
    | true => exact hs.elim
    | false =>
      obtain ⟨m, hv, hbody⟩ := hs
      subst hv
      simp only [List.cons_append]
      have hcc1 := consume_idle_quote 1 Lexer.new quoteChar rfl rfl
      have hloopm := lexLoop_extends (TokenType.StringLiteral false)
        (fun x => x ≠ quoteChar)
        (fun s x hp hx => consume_string_extend 1 s x false hp hx)
        m (start_tok Lexer.new quoteChar (TokenType.StringLiteral false))
        (start_tok_proposed _ _ _) hbody
      have hpm : Lexer.proposed_token_type
          (extend_run (start_tok Lexer.new quoteChar
            (TokenType.StringLiteral false)) m) =
          some (TokenType.StringLiteral false) := by
        rw [extend_run_proposed, start_tok_proposed]
      have hcc2 := consume_string_close 1
        (extend_run (start_tok Lexer.new quoteChar (TokenType.StringLiteral false)) m)
        quoteChar hpm rfl
      have hloopv : lexLoop Lexer.new (quoteChar :: (m ++ [quoteChar])) =
          ConsumeResult.ok (finalize_state (push_char (set_cc
            (extend_run (start_tok Lexer.new quoteChar (TokenType.StringLiteral false)) m)
            quoteChar) quoteChar) (TokenType.StringLiteral false)) := by
        rw [lexLoop_step (m ++ [quoteChar]) hcc1, lexLoop_append_ok hloopm [quoteChar],
          lexLoop_step [] hcc2]
        rfl
      have hok := (lex_eof_cases (quoteChar :: (m ++ [quoteChar])) _ hloopv).2.1
        (finalize_state_proposed _ _)
      have hrelex : relexInput (quoteChar :: (m ++ [quoteChar])) =
          quoteChar :: (m ++ [quoteChar]) := by
        unfold relexInput
        rw [hok]
      rw [hrelex]
      refine ⟨_, hok, mk_token (push_char (set_cc
        (extend_run (start_tok Lexer.new quoteChar (TokenType.StringLiteral false)) m)
        quoteChar) quoteChar) (TokenType.StringLiteral false), ?_, ?_, rfl, ?_⟩
      · exact [Token.mk TokenType.EndOfFile []
          (finalize_state (push_char (set_cc
            (extend_run (start_tok Lexer.new quoteChar (TokenType.StringLiteral false)) m)
            quoteChar) quoteChar) (TokenType.StringLiteral false)).end_line
          (finalize_state (push_char (set_cc
            (extend_run (start_tok Lexer.new quoteChar (TokenType.StringLiteral false)) m)
            quoteChar) quoteChar) (TokenType.StringLiteral false)).end_line
          (finalize_state (push_char (set_cc
            (extend_run (start_tok Lexer.new quoteChar (TokenType.StringLiteral false)) m)
            quoteChar) quoteChar) (TokenType.StringLiteral false)).end_index
          (finalize_state (push_char (set_cc
            (extend_run (start_tok Lexer.new quoteChar (TokenType.StringLiteral false)) m)
            quoteChar) quoteChar) (TokenType.StringLiteral false)).end_index]
      · rw [finalize_state_full_tokens, push_char_full_tokens, set_cc_full_tokens,
          extend_run_full_tokens, start_tok_full_tokens]
        rfl
      · rw [mk_token_value, push_char_buf, set_cc_buf, extend_run_buf, start_tok_buf]
        simp [Lexer.new]
  | BinLiteral =>
    obtain ⟨ds, hv, hdne, hall⟩ := hs
    subst hv
    cases ds with
    | nil => exact absurd rfl hdne
    | cons d ds2 =>
      have hcc1 := consume_idle_digit 1 Lexer.new '0' rfl (by decide)
      have hcc2 := consume_dec_to_bin 1 (start_tok Lexer.new '0'
        (TokenType.DecimalLiteral false)) 'b' false (start_tok_proposed _ _ _) rfl rfl
      have hloop1 := lexLoop_extends TokenType.BinLiteral (fun x => x ∈ bin_chars)
        (fun s x hp hx => consume_bin_digit 1 s x hp hx)
        (d :: ds2) (start_tok (start_tok Lexer.new '0' (TokenType.DecimalLiteral false))
          'b' TokenType.BinLiteral)
        (start_tok_proposed _ _ _) hall
      set s2 := extend_run (start_tok (start_tok Lexer.new '0'
        (TokenType.DecimalLiteral false)) 'b' TokenType.BinLiteral) (d :: ds2) with hs2
      have hloopv : lexLoop Lexer.new ('0' :: 'b' :: d :: ds2) = ConsumeResult.ok s2 := by
        rw [lexLoop_step ('b' :: d :: ds2) hcc1, lexLoop_step (d :: ds2) hcc2]
        exact hloop1
      have hp2 : s2.proposed_token_type = some TokenType.BinLiteral := by
        rw [hs2, extend_run_proposed, start_tok_proposed]
      have hbuf2 : s2.buf = '0' :: 'b' :: d :: ds2 := by
        rw [hs2, extend_run_buf, start_tok_buf, start_tok_buf]
        rfl
      have hlast : s2.buf.getLast? =
          some ((d :: ds2).getLast (List.cons_ne_nil d ds2)) := by
        rw [hbuf2, getLast?_cons_cons_of_ne_nil (List.cons_ne_nil d ds2)]
        exact List.getLast?_eq_getLast _ _
      have hfin := consume_bin_term 1 s2 '\n'
        ((d :: ds2).getLast (List.cons_ne_nil d ds2)) hp2 (by decide) (by decide)
        hlast (bin_ne_b (hall _ (List.getLast_mem _)))
      refine lex_relex_buffer_kind ('0' :: 'b' :: d :: ds2) TokenType.BinLiteral s2
        hloopv hp2 (fun b h => TokenType.noConfusion h) hbuf2 ?_ hfin
      rw [hs2, extend_run_full_tokens, start_tok_full_tokens, start_tok_full_tokens]
      rfl
  | HexLiteral =>
    obtain ⟨ds, hv, hdne, hall⟩ := hs
    subst hv
    cases ds with
    | nil => exact absurd rfl hdne
    | cons d ds2 =>
      have hcc1 := consume_idle_digit 1 Lexer.new '0' rfl (by decide)
      have hcc2 := consume_dec_to_hex 1 (start_tok Lexer.new '0'
        (TokenType.DecimalLiteral false)) 'x' false (start_tok_proposed _ _ _) rfl rfl
      have hloop1 := lexLoop_extends TokenType.HexLiteral (fun x => x ∈ hex_chars)
        (fun s x hp hx => consume_hex_digit 1 s x hp hx)
        (d :: ds2) (start_tok (start_tok Lexer.new '0' (TokenType.DecimalLiteral false))
          'x' TokenType.HexLiteral)
        (start_tok_proposed _ _ _) hall
      set s2 := extend_run (start_tok (start_tok Lexer.new '0'
        (TokenType.DecimalLiteral false)) 'x' TokenType.HexLiteral) (d :: ds2) with hs2
      have hloopv : lexLoop Lexer.new ('0' :: 'x' :: d :: ds2) = ConsumeResult.ok s2 := by
        rw [lexLoop_step ('x' :: d :: ds2) hcc1, lexLoop_step (d :: ds2) hcc2]
        exact hloop1
      have hp2 : s2.proposed_token_type = some TokenType.HexLiteral := by
        rw [hs2, extend_run_proposed, start_tok_proposed]
      have hbuf2 : s2.buf = '0' :: 'x' :: d :: ds2 := by
        rw [hs2, extend_run_buf, start_tok_buf, start_tok_buf]
        rfl
      have hlast : s2.buf.getLast? =
          some ((d :: ds2).getLast (List.cons_ne_nil d ds2)) := by
        rw [hbuf2, getLast?_cons_cons_of_ne_nil (List.cons_ne_nil d ds2)]
        exact List.getLast?_eq_getLast _ _
      have hfin := consume_hex_term 1 s2 '\n'
        ((d :: ds2).getLast (List.cons_ne_nil d ds2)) hp2 (by decide) (by decide)
        (by decide) hlast (hex_ne_x (hall _ (List.getLast_mem _)))
      refine lex_relex_buffer_kind ('0' :: 'x' :: d :: ds2) TokenType.HexLiteral s2
        hloopv hp2 (fun b h => TokenType.noConfusion h) hbuf2 ?_ hfin
      rw [hs2, extend_run_full_tokens, start_tok_full_tokens, start_tok_full_tokens]
      rfl
  | DecimalLiteral hd =>
    cases hd with
    | false =>
      obtain ⟨hne, hall⟩ := hs
      cases hv : v with
      | nil => exact absurd hv hne
      | cons d cs =>
        subst hv
        obtain ⟨hl1, hl2⟩ := le_of_mem_dec_chars (hall d (List.mem_cons_self d cs))
        have hcc1 := consume_idle_digit 1 Lexer.new d rfl ⟨hl1, hl2⟩
        have hloop1 := lexLoop_extends (TokenType.DecimalLiteral false)
          (fun x => x ∈ dec_chars)
          (fun s x hp hx => consume_dec_digit 1 s x false hp
            (fun h => dec_ne_b hx h.2) (fun h => dec_ne_x hx h.2) hx)
          cs (start_tok Lexer.new d (TokenType.DecimalLiteral false))
          (start_tok_proposed _ _ _)
          (fun x hx => hall x (List.mem_cons_of_mem d hx))
        set s2 := extend_run (start_tok Lexer.new d (TokenType.DecimalLiteral false)) cs
          with hs2
        have hloopv : lexLoop Lexer.new (d :: cs) = ConsumeResult.ok s2 := by
          rw [lexLoop_step cs hcc1]
          exact hloop1
        have hp2 : s2.proposed_token_type = some (TokenType.DecimalLiteral false) := by
          rw [hs2, extend_run_proposed, start_tok_proposed]
        have hbuf2 : s2.buf = d :: cs := by
          rw [hs2, extend_run_buf, start_tok_buf]
          rfl
        have hlast : s2.buf.getLast? =
            some ((d :: cs).getLast (List.cons_ne_nil d cs)) := by
          rw [hbuf2]
          exact List.getLast?_eq_getLast _ _
        have hfin := consume_dec_term 1 s2 '\n' false
          ((d :: cs).getLast (List.cons_ne_nil d cs)) hp2
          (fun h => absurd h.2 (by decide)) (fun h => absurd h.2 (by decide))
          (by decide) (by decide) (by decide) hlast
          (dec_ne_dot (hall _ (List.getLast_mem _)))
        refine lex_relex_buffer_kind (d :: cs) (TokenType.DecimalLiteral false) s2
          hloopv hp2 (fun b h => TokenType.noConfusion h) hbuf2 ?_ hfin
        rw [hs2, extend_run_full_tokens, start_tok_full_tokens]
        rfl
    | true =>
      obtain ⟨a, b, hv, hane, hbne, halla, hallb⟩ := hs
      subst hv
      cases a with
      | nil => exact absurd rfl hane
      | cons d a2 =>
        cases b with
        | nil => exact absurd rfl hbne
        | cons bb bs =>
          simp only [List.cons_append]
          obtain ⟨hl1, hl2⟩ :=
            le_of_mem_dec_chars (halla d (List.mem_cons_self d a2))
          have hcc1 := consume_idle_digit 1 Lexer.new d rfl ⟨hl1, hl2⟩
          have hloopa := lexLoop_extends (TokenType.DecimalLiteral false)
            (fun x => x ∈ dec_chars)
            (fun s x hp hx => consume_dec_digit 1 s x false hp
              (fun h => dec_ne_b hx h.2) (fun h => dec_ne_x hx h.2) hx)
            a2 (start_tok Lexer.new d (TokenType.DecimalLiteral false))
            (start_tok_proposed _ _ _)
            (fun x hx => halla x (List.mem_cons_of_mem d hx))
          set sa := extend_run (start_tok Lexer.new d (TokenType.DecimalLiteral false)) a2
            with hsa
          have hpa : sa.proposed_token_type = some (TokenType.DecimalLiteral false) := by
            rw [hsa, extend_run_proposed, start_tok_proposed]
          have hccdot := consume_dec_dot_set 1 sa '.' hpa rfl
          have hloopb := lexLoop_extends (TokenType.DecimalLiteral true)
            (fun x => x ∈ dec_chars)
            (fun s x hp hx => consume_dec_digit 1 s x true hp
              (fun h => dec_ne_b hx h.2) (fun h => dec_ne_x hx h.2) hx)
            (bb :: bs) (start_tok sa '.' (TokenType.DecimalLiteral true))
            (start_tok_proposed _ _ _) hallb
          set s2 := extend_run (start_tok sa '.' (TokenType.DecimalLiteral true))
            (bb :: bs) with hs2
          have hloopv : lexLoop Lexer.new (d :: (a2 ++ '.' :: bb :: bs)) =
              ConsumeResult.ok s2 := by
            rw [lexLoop_step (a2 ++ '.' :: bb :: bs) hcc1,
              lexLoop_append_ok hloopa ('.' :: bb :: bs),
              lexLoop_step (bb :: bs) hccdot]
            exact hloopb
          have hp2 : s2.proposed_token_type = some (TokenType.DecimalLiteral true) := by
            rw [hs2, extend_run_proposed, start_tok_proposed]
          have hbuf2 : s2.buf = d :: (a2 ++ '.' :: bb :: bs) := by
            rw [hs2, extend_run_buf, start_tok_buf, hsa, extend_run_buf, start_tok_buf]
            simp [Lexer.new]
          have hlast : s2.buf.getLast? =
              some ((bb :: bs).getLast (List.cons_ne_nil bb bs)) := by
            rw [hs2, extend_run_buf, List.getLast?_append,
              List.getLast?_eq_getLast (bb :: bs) (List.cons_ne_nil bb bs)]
            rfl
          have hfin := consume_dec_term 1 s2 '\n' true
            ((bb :: bs).getLast (List.cons_ne_nil bb bs)) hp2
            (fun h => absurd h.2 (by decide)) (fun h => absurd h.2 (by decide))
            (by decide) (by decide) (by decide) hlast
            (dec_ne_dot (hallb _ (List.getLast_mem _)))
          refine lex_relex_buffer_kind (d :: (a2 ++ '.' :: bb :: bs))
            (TokenType.DecimalLiteral true) s2 hloopv hp2
            (fun b h => TokenType.noConfusion h) hbuf2 ?_ hfin
          rw [hs2, extend_run_full_tokens, start_tok_full_tokens, hsa,
            extend_run_full_tokens, start_tok_full_tokens]
          rfl

theorem lex_tokens_shape (source : List Char) (tokens : List Token)
    (h : Lexer.lex Lexer.new source = LexResult.ok tokens) :
    ∀ t ∈ tokens, token_shape t.token_type t.value := by
  cases hl : lexLoop Lexer.new source with
  | fatal m => exact absurd hl ((lexLoop_good source Lexer.new inv_new).2 m)
  | err e =>
    simp only [Lexer.lex, hl] at h
    exact LexResult.noConfusion h
  | ok s1 =>
    have hI := (lexLoop_good source Lexer.new inv_new).1 s1 hl
    cases hp : s1.proposed_token_type with
    | none =>
      simp only [Lexer.lex, hl, hp, push_token] at h
      injection h with h
      subst h
      intro t ht
      rcases List.mem_append.1 ht with hmem | hmem
      · exact hI.shapes t hmem
      · rcases List.mem_singleton.1 hmem with rfl
        show token_shape TokenType.EndOfFile s1.buf
        have hbuf : s1.buf = [] := by
          have hb := hI.buf_ok
          rw [hp] at hb
          exact hb
        exact hbuf
    | some tt =>
      cases tt <;> simp only [Lexer.lex, hl, hp] at h <;> exact LexResult.noConfusion h

/-- C4: round-trip idempotence.  For every accepted input, re-lexing the
lexeme of any resulting token in isolation (with a trailing newline
appended exactly when the lexeme alone does not lex) succeeds and its first
token has the same kind and the same lexeme. -/
theorem lex_roundtrip (source : List Char) (tokens : List Token)
    (h : Lexer.lex Lexer.new source = LexResult.ok tokens) :
    ∀ t ∈ tokens, ∃ ts,
      Lexer.lex Lexer.new (relexInput t.value) = LexResult.ok ts ∧
      ∃ u rest, ts = u :: rest ∧ u.token_type = t.token_type ∧
        u.value = t.value :=
  fun t ht => relex_token t.token_type t.value (lex_tokens_shape source tokens h t ht)

/-- Witness for `lex_roundtrip`: the identifier token of `a`+newline. -/
theorem lex_roundtrip_witness :
    ∃ ts, Lexer.lex Lexer.new (relexInput
        (Token.mk TokenType.Identifier ['a'] 1 1 0 1).value) = LexResult.ok ts ∧
      ∃ u rest, ts = u :: rest ∧
        u.token_type = (Token.mk TokenType.Identifier ['a'] 1 1 0 1).token_type ∧
        u.value = (Token.mk TokenType.Identifier ['a'] 1 1 0 1).value :=
  lex_roundtrip "a\n".toList
    [Token.mk TokenType.Identifier ['a'] 1 1 0 1,
     Token.mk TokenType.Newline ['\n'] 1 2 1 0,
     Token.mk TokenType.EndOfFile [] 2 2 0 0] rfl
    (Token.mk TokenType.Identifier ['a'] 1 1 0 1)
    (List.mem_cons_self _ _)
